import Mathlib

/-!
Verification development for the NLDF factory-automation decision pipeline.

This file gives a shallow embedding of the parts of the repository that the
spec's testable properties talk about:

* `order.py`           — Product / Order lifecycle model and the OrderManager
                         directory (embedded with an explicit object store so
                         that Python's reference aliasing of Product objects
                         is preserved);
* `shared_order_manager.py` — the SharedOrderManager singleton with its
                         processed-set, round-robin counter and
                         `process_order` entry point;
* `product_flow_agent.py` — command validation and duplicate-target
                         filtering (`_validate_command`, the validation part
                         of `_parse_agent_output`);
* `line_commander.py`  — the bounded decision-event queue
                         (`_queue_decision_event` over `asyncio.Queue`);
* `mqtt_listener_manager.py` — `get_factory_state` over an explicit heap of
                         Python dict objects, so that shallow-copy aliasing
                         is observable.

`datetime.now()` is modelled by an explicit `now : Nat` argument threaded to
every operation that reads the clock.  Logging calls are dropped except where
an observable effect matters (the dropped-event log of the decision queue).
-/

namespace NLDF

/-! ### Python dict / set primitives

Python `dict` preserves insertion order; assigning to an existing key
replaces the value in place, a new key is appended at the end.  `set.add`
inserts only if absent, `set.discard` removes.  We model dicts as
association lists with exactly those semantics. -/

def dictGet {κ α : Type} [DecidableEq κ] : List (κ × α) → κ → Option α
  | [], _ => none
  | (k', v) :: rest, k => if k' = k then some v else dictGet rest k

def dictSet {κ α : Type} [DecidableEq κ] : List (κ × α) → κ → α → List (κ × α)
  | [], k, v => [(k, v)]
  | (k', v') :: rest, k, v =>
      if k' = k then (k, v) :: rest else (k', v') :: dictSet rest k v

def setAdd {α : Type} [DecidableEq α] (s : List α) (a : α) : List α :=
  if a ∈ s then s else s ++ [a]

def setDiscard {α : Type} [DecidableEq α] (s : List α) (a : α) : List α :=
  s.filter (fun x => x ≠ a)

theorem dictGet_dictSet_self {κ α : Type} [DecidableEq κ]
    (d : List (κ × α)) (k : κ) (v : α) : dictGet (dictSet d k v) k = some v := by
  induction d with
  | nil => simp [dictGet, dictSet]
  | cons kv rest ih =>
      obtain ⟨k', v'⟩ := kv
      by_cases h : k' = k
      · simp [dictGet, dictSet, h]
      · simp [dictGet, dictSet, h, ih]

theorem dictGet_dictSet_ne {κ α : Type} [DecidableEq κ]
    (d : List (κ × α)) (k k' : κ) (v : α) (h : k' ≠ k) :
    dictGet (dictSet d k v) k' = dictGet d k' := by
  induction d with
  | nil => simp [dictGet, dictSet, Ne.symm h]
  | cons kv rest ih =>
      obtain ⟨k₀, v₀⟩ := kv
      by_cases h0 : k₀ = k
      · subst h0
        simp [dictGet, dictSet, Ne.symm h]
      · simp [dictGet, dictSet, h0, ih]

theorem dictGet_append_left {κ α : Type} [DecidableEq κ]
    (d₁ d₂ : List (κ × α)) (k : κ) (v : α) (h : dictGet d₁ k = some v) :
    dictGet (d₁ ++ d₂) k = some v := by
  induction d₁ with
  | nil => simp [dictGet] at h
  | cons kv rest ih =>
      obtain ⟨k₀, v₀⟩ := kv
      by_cases h0 : k₀ = k
      · simp [dictGet, h0] at h ⊢; exact h
      · simp [dictGet, h0] at h ⊢; exact ih h

/-! ### `order.py`: enums and the Product entity -/

/-- Product types supported by the factory (`ProductType`). -/
inductive ProductType
  | P1
  | P2
  | P3
deriving DecidableEq, Repr

/-- Product status throughout the production pipeline (`ProductStatus`). -/
inductive ProductStatus
  | PENDING
  | IN_TRANSPORT
  | AT_STATION_A
  | AT_STATION_B
  | AT_STATION_C
  | AT_QUALITY_CHECK
  | IN_WAREHOUSE
  | FAILED_QC
  | ERROR
deriving DecidableEq, Repr

/-- The `.value` string of a `ProductStatus` member. -/
def ProductStatus.value : ProductStatus → String
  | .PENDING => "pending"
  | .IN_TRANSPORT => "in_transport"
  | .AT_STATION_A => "at_station_a"
  | .AT_STATION_B => "at_station_b"
  | .AT_STATION_C => "at_station_c"
  | .AT_QUALITY_CHECK => "at_quality_check"
  | .IN_WAREHOUSE => "in_warehouse"
  | .FAILED_QC => "failed_qc"
  | .ERROR => "error"

/-- Order status tracking (`OrderStatus`). -/
inductive OrderStatus
  | PENDING
  | IN_PROGRESS
  | COMPLETED
  | CANCELLED
  | OVERDUE
deriving DecidableEq, Repr

/-- One entry of `Product.processing_history` (the dict appended by
`add_processing_step`). -/
structure HistStep where
  location : String
  action : String
  timestamp : Nat
  status : String
deriving DecidableEq, Repr

/-- The `Product` dataclass of `order.py`. -/
structure Product where
  product_id : String
  product_type : ProductType
  status : ProductStatus := .PENDING
  current_location : String := "RawMaterial"
  assigned_agv : Option String := none
  created_time : Nat := 0
  completion_time : Option Nat := none
  processing_history : List HistStep := []
deriving DecidableEq, Repr

/-- `Product.add_processing_step`: append one history entry recording the
current status value. -/
def Product.add_processing_step (p : Product) (location action : String)
    (timestamp : Nat) : Product :=
  { p with processing_history :=
      p.processing_history ++
        [{ location := location, action := action, timestamp := timestamp,
           status := p.status.value }] }

/-- `Product._get_p1_p2_next_step`: linear A to B to C to quality check to
warehouse flow. -/
def Product.p1p2NextStep (p : Product) : Option String :=
  match p.status with
  | .PENDING => some "StationA"
  | .AT_STATION_A => some "StationB"
  | .AT_STATION_B => some "StationC"
  | .AT_STATION_C => some "QualityCheck"
  | .AT_QUALITY_CHECK => some "Warehouse"
  | _ => none

/-- `Product._get_p3_next_step`.  Note: the source's `at_station_b` branch
computes `"StationC"` on both sides of its visit-count test, exactly as
written there. -/
def Product.p3NextStep (p : Product) : Option String :=
  if p.status = .PENDING then some "StationA"
  else if p.status = .AT_STATION_A then some "StationB"
  else if p.status = .AT_STATION_B then
    let b_visits :=
      (p.processing_history.filter (fun step => step.location = "StationB")).length
    if b_visits < 2 then some "StationC" else some "StationC"
  else if p.status = .AT_STATION_C then
    let c_visits :=
      (p.processing_history.filter (fun step => step.location = "StationC")).length
    if c_visits < 2 then some "StationB" else some "QualityCheck"
  else if p.status = .AT_QUALITY_CHECK then some "Warehouse"
  else none

/-- `Product.get_next_processing_step`. -/
def Product.get_next_processing_step (p : Product) : Option String :=
  if p.product_type = .P3 then Product.p3NextStep p else Product.p1p2NextStep p

/-! ### `order.py`: the Order entity

Python `Order.products` is a list of references to the very same `Product`
objects that the manager's `products` dict points at; mutating a product
through the manager is visible through the order.  We keep that aliasing by
storing products in an explicit object store (`ref` = allocation number) and
letting `Order.products` hold refs. -/

/-- The `Order` dataclass.  `products` holds store refs of the owned Product
objects; `line_assignments` maps a line id to a list of product ids. -/
structure Order where
  order_id : String
  products : List Nat := []
  status : OrderStatus := .PENDING
  created_time : Nat := 0
  delivery_time : Option Nat := none
  assigned : Bool := false
  line_assignments : List (String × List String) := []
deriving DecidableEq, Repr

/-- The store of live `Product` objects (Python's heap restricted to
products): ref number to current object state. -/
abbrev ProductStore : Type := List (Nat × Product)

/-- `Order.add_product`: append the product and move a pending order to
in-progress. -/
def Order.add_product (o : Order) (ref : Nat) : Order :=
  let o := { o with products := o.products ++ [ref] }
  if o.status = .PENDING then { o with status := .IN_PROGRESS } else o

/-- Statuses Python treats as terminal in `get_pending_products` and
`is_completed`. -/
def ProductStatus.isTerminal (s : ProductStatus) : Bool :=
  s = .IN_WAREHOUSE ∨ s = .FAILED_QC

/-- `Order.get_pending_products`: refs of owned products that are not yet
terminal (objects dereferenced through the store). -/
def Order.get_pending_products (o : Order) (store : ProductStore) : List Nat :=
  o.products.filter (fun r =>
    match dictGet store r with
    | some p => ¬ p.status.isTerminal
    | none => false)

/-- `Order.assign_product_to_line`: create the line's list if missing, then
append the product id if not already present (setting `assigned`). -/
def Order.assign_product_to_line (o : Order) (product_id line_id : String) :
    Order :=
  let lst := (dictGet o.line_assignments line_id).getD []
  if product_id ∈ lst then
    { o with line_assignments := dictSet o.line_assignments line_id lst }
  else
    { o with
        line_assignments := dictSet o.line_assignments line_id (lst ++ [product_id]),
        assigned := true }

/-- `Order.is_completed`: all owned products are in a terminal status
(vacuously true for an order owning zero products). -/
def Order.is_completed (o : Order) (store : ProductStore) : Bool :=
  o.products.all (fun r =>
    match dictGet store r with
    | some p => p.status.isTerminal
    | none => true)

/-! ### `order.py`: the OrderManager directory -/

/-- One item of an order payload (`item.get("product_type", "P1")`,
`item.get("quantity", 1)`). -/
structure OrderItem where
  product_type : Option String := none
  quantity : Option Nat := none
deriving DecidableEq, Repr

/-- An order payload as consumed by `create_order_from_payload`.  The
`deadline` field is seconds from creation (the source parses a float; only
its additive use matters here, so we keep natural seconds). -/
structure Payload where
  order_id : Option String := none
  deadline : Option Nat := none
  items : List OrderItem := []
deriving DecidableEq, Repr

/-- The `OrderManager` directory plus the explicit store of live Product
objects (`store`/`next_ref` model Python's object heap; `products` maps a
product id to the ref of its object, as the Python dict maps ids to object
references). -/
structure OrderManager where
  store : ProductStore := []
  next_ref : Nat := 0
  orders : List (String × Order) := []
  products : List (String × Nat) := []
  active_order_ids : List String := []
deriving DecidableEq, Repr

/-- Allocate a fresh Product object on the store. -/
def OrderManager.alloc (m : OrderManager) (p : Product) : Nat × OrderManager :=
  (m.next_ref,
   { m with store := m.store ++ [(m.next_ref, p)], next_ref := m.next_ref + 1 })

/-- `ProductType(s)` parsing: the three valid enum strings. -/
def parseProductType : String → Option ProductType
  | "P1" => some .P1
  | "P2" => some .P2
  | "P3" => some .P3
  | _ => none

/-- `OrderManager._create_product_from_item`: unknown type strings default
to P1 (with a logged warning); the fresh product gets one initial
`RawMaterial / order_received` history entry.  The source's `except` path is
unreachable here, so the value is total. -/
def OrderManager.create_product_from_item (product_id product_type_str : String)
    (now : Nat) : Product :=
  let product_type := (parseProductType product_type_str).getD .P1
  let p : Product :=
    { product_id := product_id, product_type := product_type, created_time := now }
  p.add_processing_step "RawMaterial" "order_received" now

/-- Python's `f"{n:03d}"` for the per-order product counter. -/
def natPad3 (n : Nat) : String :=
  let s := toString n
  if 3 ≤ s.length then s else String.mk (List.replicate (3 - s.length) '0') ++ s

/-- Python's `str.lower()`, character-wise (the type strings lowered here
are ASCII). -/
def strLower (s : String) : String := String.mk (s.data.map Char.toLower)

/-- The generated product id
`f"prod_{product_type_str.lower()}_{order_id}_{product_counter:03d}"`. -/
def genProductId (product_type_str order_id : String) (counter : Nat) : String :=
  "prod_" ++ strLower product_type_str ++ "_" ++ order_id ++ "_" ++ natPad3 counter

/-- One turn of the inner quantity loop of `create_order_from_payload`:
generate the product id, create the product, register it on the store and in
the products dict, and append it to the order. -/
def createProductStep (order_id product_type_str : String) (now : Nat)
    (acc : Order × OrderManager × Nat) (_i : Nat) : Order × OrderManager × Nat :=
  let (ord, mgr, counter) := acc
  let pid := genProductId product_type_str order_id counter
  let product := OrderManager.create_product_from_item pid product_type_str now
  let (r, mgr2) := mgr.alloc product
  let ord2 := ord.add_product r
  let mgr3 := { mgr2 with products := dictSet mgr2.products pid r }
  (ord2, mgr3, counter + 1)

/-- The fresh `Order` constructed by `create_order_from_payload` before the
items are expanded: `Order(order_id=order_id)` plus the optional
delivery-time from the payload deadline (seconds from creation). -/
def initOrder (order_id : String) (now : Nat) (deadline : Option Nat) : Order :=
  let order0 : Order := { order_id := order_id, created_time := now }
  match deadline with
  | some d => { order0 with delivery_time := some (now + d) }
  | none => order0

/-- The per-item loop of `create_order_from_payload`: expand one item's
quantity into individual products. -/
def createItemsStep (order_id : String) (now : Nat)
    (acc : Order × OrderManager × Nat) (item : OrderItem) :
    Order × OrderManager × Nat :=
  let product_type_str := item.product_type.getD "P1"
  let quantity := item.quantity.getD 1
  (List.range quantity).foldl (createProductStep order_id product_type_str now) acc

/-- `OrderManager.create_order_from_payload`: missing `order_id` is rejected
(returns none, no state change); an existing id returns the stored order
unchanged; otherwise the items are expanded into products, the order stored
and marked active. -/
def OrderManager.create_order_from_payload (m : OrderManager) (payload : Payload)
    (now : Nat) : Option Order × OrderManager :=
  match payload.order_id with
  | none => (none, m)
  | some order_id =>
    match dictGet m.orders order_id with
    | some existing => (some existing, m)
    | none =>
      let order1 := initOrder order_id now payload.deadline
      let res := payload.items.foldl (createItemsStep order_id now) (order1, m, 1)
      let order2 := res.1
      let m2 := res.2.1
      let m3 :=
        { m2 with
            orders := dictSet m2.orders order_id order2,
            active_order_ids := setAdd m2.active_order_ids order_id }
      (some order2, m3)

/-- `OrderManager.update_product_status`: look the product up, set its
status (and optionally location / AGV), append one history entry, and stamp
`completion_time` whenever the new status is `in_warehouse`.  An unknown
product id is a logged no-op.  (Python's `location or current_location`
falsy test coincides with `Option.getD` here since callers pass `None` or a
station name.)  `applyStatusUpdate` is the in-place mutation of the looked-up
Product object performed by the body of `update_product_status`. -/
def applyStatusUpdate (product : Product) (new_status : ProductStatus)
    (location agv_id : Option String) (now : Nat) : Product :=
  let old_status := product.status
  let product := { product with status := new_status }
  let product :=
    match location with
    | some l => { product with current_location := l }
    | none => product
  let product :=
    match agv_id with
    | some a => { product with assigned_agv := some a }
    | none => product
  let action :=
    "status_changed_from_" ++ old_status.value ++ "_to_" ++ new_status.value
  let product :=
    product.add_processing_step (location.getD product.current_location) action now
  if new_status = .IN_WAREHOUSE then { product with completion_time := some now }
  else product

def OrderManager.update_product_status (m : OrderManager) (product_id : String)
    (new_status : ProductStatus) (location : Option String)
    (agv_id : Option String) (now : Nat) : OrderManager :=
  match dictGet m.products product_id with
  | none => m
  | some ref =>
    match dictGet m.store ref with
    | none => m
    | some product =>
      { m with store :=
          dictSet m.store ref (applyStatusUpdate product new_status location agv_id now) }

/-- `OrderManager.assign_order_to_line`: unknown order id is a logged no-op;
with no explicit product list, all pending products of the order are
assigned. -/
def OrderManager.assign_order_to_line (m : OrderManager) (order_id line_id : String)
    (product_ids : Option (List String)) : OrderManager :=
  match dictGet m.orders order_id with
  | none => m
  | some order =>
    let pids :=
      match product_ids with
      | some l => l
      | none =>
          (order.get_pending_products m.store).filterMap
            (fun r => (dictGet m.store r).map Product.product_id)
    let order :=
      pids.foldl (fun o pid => o.assign_product_to_line pid line_id) order
    { m with orders := dictSet m.orders order_id order }

/-- One iteration of `complete_order_check`: if the active order's products
are all terminal, flip its status to completed and discard it from the
active set.  (In every reachable state the active set is contained in the
orders dict, so the lookup cannot miss; a miss is a no-op here where Python
would raise.) -/
def completeCheckStep (acc : OrderManager) (oid : String) : OrderManager :=
  match dictGet acc.orders oid with
  | none => acc
  | some order =>
    if order.is_completed acc.store then
      { acc with
          orders := dictSet acc.orders oid { order with status := .COMPLETED },
          active_order_ids := setDiscard acc.active_order_ids oid }
    else acc

/-- `OrderManager.complete_order_check`: iterate over a snapshot
(`list(self.active_order_ids)`) of the active set. -/
def OrderManager.complete_order_check (m : OrderManager) : OrderManager :=
  m.active_order_ids.foldl completeCheckStep m

/-! ### `shared_order_manager.py` -/

/-- `SharedOrderManager._available_lines`. -/
def available_lines : List String := ["line1", "line2", "line3"]

/-- State of the `SharedOrderManager` singleton (the `_assignment_lock`
serialises `process_order`, so one sequential run models the guarded
region). -/
structure SharedOrderManager where
  order_manager : OrderManager := {}
  processed_orders : List String := []
  line_assignment_counter : Nat := 0
deriving DecidableEq, Repr

/-- `SharedOrderManager._get_next_assignment_line`: index the fixed rotation
by the counter modulo the number of lines, then advance the counter by
one. -/
def SharedOrderManager.next_assignment_line (s : SharedOrderManager) :
    String × SharedOrderManager :=
  (available_lines.getD (s.line_assignment_counter % available_lines.length) "",
   { s with line_assignment_counter := s.line_assignment_counter + 1 })

/-- `SharedOrderManager.process_order`: under the assignment lock, an
already-processed id returns the stored order; otherwise the order is
created, all its pending products are assigned to the next round-robin line
(only when there are any), and the id is marked processed.  The returned
order is the stored object (Python returns an alias that the assignment just
mutated), hence the final dict lookup. -/
def SharedOrderManager.process_order (s : SharedOrderManager) (payload : Payload)
    (_requesting_line : String) (now : Nat) : Option Order × SharedOrderManager :=
  match payload.order_id with
  | none => (none, s)
  | some order_id =>
    if order_id ∈ s.processed_orders then
      (dictGet s.order_manager.orders order_id, s)
    else
      let res := s.order_manager.create_order_from_payload payload now
      match res.1 with
      | none => (none, { s with order_manager := res.2 })
      | some order =>
        let om' := res.2
        let products := order.get_pending_products om'.store
        let s1 : SharedOrderManager := { s with order_manager := om' }
        let s2 :=
          if products.isEmpty then s1
          else
            let nl := s1.next_assignment_line
            let product_ids :=
              products.filterMap (fun r => (dictGet om'.store r).map Product.product_id)
            { nl.2 with
                order_manager :=
                  nl.2.order_manager.assign_order_to_line order_id nl.1 (some product_ids) }
        let s3 := { s2 with processed_orders := setAdd s2.processed_orders order_id }
        (dictGet s3.order_manager.orders order_id, s3)

/-! ### Order Directory operation sequences

The spec's lifecycle invariants quantify over every state reachable through
the directory's operations; `DirOp` enumerates those operations and `runOps`
replays a sequence from a given state. -/

/-- One Order Directory operation. -/
inductive DirOp
  | createOrder (payload : Payload) (now : Nat)
  | updateStatus (product_id : String) (new_status : ProductStatus)
      (location : Option String) (agv_id : Option String) (now : Nat)
  | assignLine (order_id line_id : String) (product_ids : Option (List String))
  | completeCheck

/-- Apply one directory operation. -/
def OrderManager.applyOp (m : OrderManager) : DirOp → OrderManager
  | .createOrder payload now => (m.create_order_from_payload payload now).2
  | .updateStatus pid st loc agv now => m.update_product_status pid st loc agv now
  | .assignLine oid line pids => m.assign_order_to_line oid line pids
  | .completeCheck => m.complete_order_check

/-- Replay a sequence of directory operations. -/
def OrderManager.runOps (m : OrderManager) (ops : List DirOp) : OrderManager :=
  ops.foldl OrderManager.applyOp m

/-! ### Driving a product through its traversal

Test harness for the spec's class-C lifecycle property: repeatedly ask
`get_next_processing_step` and apply the corresponding status transition
through `update_product_status` (the status a location maps to is the one
the telemetry layer reports on arrival there).  Returns the list of visited
locations. -/

/-- The arrival status at each processing location. -/
def statusForLocation : String → Option ProductStatus
  | "StationA" => some .AT_STATION_A
  | "StationB" => some .AT_STATION_B
  | "StationC" => some .AT_STATION_C
  | "QualityCheck" => some .AT_QUALITY_CHECK
  | "Warehouse" => some .IN_WAREHOUSE
  | _ => none

/-- Drive one product: at each step take the next processing location and
report arrival there via `update_product_status`; stop when no further step
exists (or fuel runs out). -/
def driveVisits (m : OrderManager) (pid : String) (now : Nat) :
    Nat → List String
  | 0 => []
  | fuel + 1 =>
    match dictGet m.products pid with
    | none => []
    | some ref =>
      match dictGet m.store ref with
      | none => []
      | some p =>
        match p.get_next_processing_step with
        | none => []
        | some loc =>
          match statusForLocation loc with
          | none => []
          | some st =>
              loc ::
                driveVisits (m.update_product_status pid st (some loc) none now)
                  pid (now + 1) fuel

/-! ### `product_flow_agent.py`: command validation and duplicate filtering -/

/-- A JSON scalar sitting in a command's `params` entry (enough to express
the `isinstance(target_level, (int, float))` test; numeric levels are kept
as integers since the checks only compare against 0 and 100). -/
inductive PVal
  | num (n : Int)
  | str (s : String)
deriving DecidableEq, Repr

/-- The `params` object of a command. -/
structure CmdParams where
  target_point : Option String := none
  target_level : Option PVal := none
  product_id : Option String := none
deriving DecidableEq, Repr

/-- An oracle-returned command dict.  `action` and `target` are optional
because `_validate_command` first checks their presence;
`command.get("params", {})` defaults to the empty object. -/
structure Command where
  action : Option String := none
  target : Option String := none
  params : CmdParams := {}
deriving DecidableEq, Repr

/-- The `valid_actions` list of `_validate_command`. -/
def valid_actions : List String := ["move", "load", "unload", "charge"]

/-- The `valid_points` topology enumeration of `_validate_command`. -/
def valid_points : List String :=
  ["P0", "P1", "P2", "P3", "P4", "P5", "P6", "P7", "P8", "P9"]

/-- The vehicles known to a line (`LineCommander.active_agvs`;
`_validate_command` hardcodes the same pair). -/
def active_agvs : List String := ["AGV_1", "AGV_2"]

/-- `ProductFlowAgent._validate_command`.  Note `params.get("target_level",
80)`: an absent level is validated as the default 80. -/
def validate_command (command : Command) : Bool :=
  match command.action, command.target with
  | some action, some target =>
    if ¬ (action ∈ valid_actions) then false
    else if ¬ (target ∈ active_agvs) then false
    else if action = "move" then
      match command.params.target_point with
      | none => false
      | some tp => if tp = "" then false else decide (tp ∈ valid_points)
    else if action = "charge" then
      match command.params.target_level with
      | none => decide ((0 : Int) ≤ 80 ∧ (80 : Int) ≤ 100)
      | some (.num n) => decide (0 ≤ n ∧ n ≤ 100)
      | some (.str _) => false
    else true
  | _, _ => false

/-- The validation and duplicate-target filtering loop of
`_parse_agent_output`: keep a command when it validates and its target AGV
has not been used by an earlier kept command. -/
def validateAndDedup (commands : List Command) : List Command :=
  (commands.foldl
    (fun (acc : List Command × List (Option String)) cmd =>
      if validate_command cmd then
        if cmd.target ∈ acc.2 then acc
        else (acc.1 ++ [cmd], acc.2 ++ [cmd.target])
      else acc)
    ([], [])).1

/-! ### `line_commander.py`: the bounded decision-event queue -/

/-- The payload handed to `_queue_decision_event` (only its optional
`severity` is read by the enqueue path). -/
structure EventData where
  severity : Option String := none
deriving DecidableEq, Repr

/-- A queued decision event. -/
structure DecisionEvent where
  etype : String
  data : EventData
  timestamp : Nat
  severity : String
deriving DecidableEq, Repr

/-- An `asyncio.Queue` with its `maxsize`. -/
structure EventQueue where
  items : List DecisionEvent := []
  maxsize : Nat := 100
deriving DecidableEq, Repr

/-- `asyncio.Queue.put_nowait`: raises `QueueFull` when a positive `maxsize`
is reached, otherwise appends. -/
def EventQueue.put_nowait (q : EventQueue) (e : DecisionEvent) :
    Except Unit EventQueue :=
  if 0 < q.maxsize ∧ q.maxsize ≤ q.items.length then .error ()
  else .ok { q with items := q.items ++ [e] }

/-- The queue-owning slice of `LineCommander` state, plus the log of warned
drops (`"Decision queue full, dropping ... event"`). -/
structure CommanderQueueState where
  decision_queue : EventQueue := { maxsize := 100 }
  dropped_events : List String := []
deriving DecidableEq, Repr

/-- `LineCommander._queue_decision_event`: build the event, try a
non-blocking put, and on `QueueFull` drop the event with a logged warning —
the exception never escapes. -/
def queue_decision_event (s : CommanderQueueState) (event_type : String)
    (event_data : EventData) (now : Nat) : CommanderQueueState :=
  let event : DecisionEvent :=
    { etype := event_type, data := event_data, timestamp := now,
      severity := event_data.severity.getD "medium" }
  match s.decision_queue.put_nowait event with
  | .ok q' => { s with decision_queue := q' }
  | .error _ => { s with dropped_events := s.dropped_events ++ [event_type] }

/-- The `DecisionEvent` that `_queue_decision_event` builds for a given
enqueue request. -/
def mkDecisionEvent (req : String × EventData) (now : Nat) : DecisionEvent :=
  { etype := req.1, data := req.2, timestamp := now,
    severity := req.2.severity.getD "medium" }

/-! ### `mqtt_listener_manager.py`: the factory-state snapshot

`get_factory_state` returns `self.factory_state.copy()`.  To make the
aliasing of a Python `dict.copy()` observable we embed the relevant objects
in an explicit heap: a dict object holds addresses of its values, and
`copy()` allocates a new dict carrying the same value addresses. -/

/-- A heap cell: the Python objects the factory state is built from. -/
inductive PyVal
  | vdict (entries : List (String × Nat))
  | vlist (elems : List Nat)
  | vnum (n : Int)
  | vstr (s : String)
  | vnone
deriving DecidableEq, Repr

/-- A heap of Python objects with a fresh-address counter. -/
structure PyHeap where
  cells : List (Nat × PyVal) := []
  next_addr : Nat := 0
deriving DecidableEq, Repr

/-- Read the object at an address. -/
def PyHeap.get (h : PyHeap) (a : Nat) : Option PyVal := dictGet h.cells a

/-- Overwrite the object at an address. -/
def PyHeap.set (h : PyHeap) (a : Nat) (v : PyVal) : PyHeap :=
  { h with cells := dictSet h.cells a v }

/-- Allocate a new object at a fresh address. -/
def PyHeap.alloc (h : PyHeap) (v : PyVal) : Nat × PyHeap :=
  (h.next_addr,
   { cells := dictSet h.cells h.next_addr v, next_addr := h.next_addr + 1 })

/-- Python `d[key] = value` on the dict object at address `a` (`value` given
by address). -/
def PyHeap.setItem (h : PyHeap) (a : Nat) (key : String) (vaddr : Nat) : PyHeap :=
  match h.get a with
  | some (.vdict es) => h.set a (.vdict (dictSet es key vaddr))
  | _ => h

/-- Python `d.get(key)` on the dict object at address `a`, giving the value
address. -/
def PyHeap.getItem (h : PyHeap) (a : Nat) (key : String) : Option Nat :=
  match h.get a with
  | some (.vdict es) => dictGet es key
  | _ => none

/-- All allocated addresses lie below the fresh-address counter. -/
def PyHeap.WF (h : PyHeap) : Prop :=
  ∀ a ∈ h.cells.map Prod.fst, a < h.next_addr

/-- The snapshot-owning slice of `MQTTListenerManager`: the address of its
`factory_state` top-level dict. -/
structure ListenerState where
  factory_state : Nat
deriving DecidableEq, Repr

/-- Construction of the initial `factory_state` dict of
`MQTTListenerManager.__init__` (empty nested stations / agvs / conveyors /
warehouse dicts, empty alerts list, `last_updated = None`). -/
def initListener (h : PyHeap) : ListenerState × PyHeap :=
  let (aStations, h) := h.alloc (.vdict [])
  let (aAgvs, h) := h.alloc (.vdict [])
  let (aConveyors, h) := h.alloc (.vdict [])
  let (aWarehouse, h) := h.alloc (.vdict [])
  let (aAlerts, h) := h.alloc (.vlist [])
  let (aNone, h) := h.alloc .vnone
  let (aTop, h) := h.alloc (.vdict
    [("stations", aStations), ("agvs", aAgvs), ("conveyors", aConveyors),
     ("warehouse", aWarehouse), ("alerts", aAlerts), ("last_updated", aNone)])
  ({ factory_state := aTop }, h)

/-- `MQTTListenerManager.get_factory_state`: stamp `last_updated` with the
current time, then return `self.factory_state.copy()` — a new top-level dict
object holding the same value addresses (a shallow copy). -/
def get_factory_state (m : ListenerState) (h : PyHeap) (now : Int) :
    Nat × PyHeap :=
  let r := h.alloc (.vnum now)
  let h2 := r.2.setItem m.factory_state "last_updated" r.1
  match h2.get m.factory_state with
  | some (.vdict es) => h2.alloc (.vdict es)
  | _ => h2.alloc .vnone

/-! ### Sequential calls to the round-robin line selector -/

/-- N sequential calls to `_get_next_assignment_line`: the list of returned
lines and the final state. -/
def assignmentCalls (s : SharedOrderManager) : Nat → List String × SharedOrderManager
  | 0 => ([], s)
  | n + 1 =>
    let r := s.next_assignment_line
    let rest := assignmentCalls r.2 n
    (r.1 :: rest.1, rest.2)

/-- The line returned for rotation slot `k`. -/
def lineAt (k : Nat) : String := available_lines.getD (k % 3) ""

theorem assignmentCalls_eq (n : Nat) :
    ∀ s : SharedOrderManager,
      (assignmentCalls s n).1 =
        (List.range n).map (fun i => lineAt (s.line_assignment_counter + i)) := by
  induction n with
  | zero => intro s; simp [assignmentCalls]
  | succ n ih =>
      intro s
      have hcons : (assignmentCalls s (n + 1)).1 =
          lineAt s.line_assignment_counter ::
            (assignmentCalls
              { s with line_assignment_counter := s.line_assignment_counter + 1 } n).1 := by
        simp [assignmentCalls, SharedOrderManager.next_assignment_line, lineAt,
          available_lines]
      rw [hcons, ih, List.range_succ_eq_map]
      simp only [List.map_cons, List.map_map, List.cons.injEq]
      refine ⟨by simp, ?_⟩
      apply List.map_congr_left
      intro i _
      simp only [Function.comp_apply]
      congr 1
      omega

/-- Closed form for how often each line occurs among the first `n` rotation
slots. -/
theorem count_lineAt (n : Nat) :
    ((List.range n).map (fun i => lineAt i)).count "line1" = (n + 2) / 3 ∧
    ((List.range n).map (fun i => lineAt i)).count "line2" = (n + 1) / 3 ∧
    ((List.range n).map (fun i => lineAt i)).count "line3" = n / 3 := by
  induction n with
  | zero => simp
  | succ n ih =>
      obtain ⟨h1, h2, h3⟩ := ih
      rw [List.range_succ, List.map_append]
      have hmod : n % 3 = 0 ∨ n % 3 = 1 ∨ n % 3 = 2 := by omega
      rcases hmod with h | h | h
      · have hl : lineAt n = "line1" := by simp [lineAt, h, available_lines]
        simp only [List.map_cons, List.map_nil, List.count_append, hl]
        refine ⟨?_, ?_, ?_⟩ <;> simp [h1, h2, h3, List.count_cons, List.count_nil] <;> omega
      · have hl : lineAt n = "line2" := by simp [lineAt, h, available_lines]
        simp only [List.map_cons, List.map_nil, List.count_append, hl]
        refine ⟨?_, ?_, ?_⟩ <;> simp [h1, h2, h3, List.count_cons, List.count_nil] <;> omega
      · have hl : lineAt n = "line3" := by simp [lineAt, h, available_lines]
        simp only [List.map_cons, List.map_nil, List.count_append, hl]
        refine ⟨?_, ?_, ?_⟩ <;> simp [h1, h2, h3, List.count_cons, List.count_nil] <;> omega

theorem cycle_slice (N m : Nat) (h : 3 * m + 3 ≤ N) :
    (((List.range N).map (fun i => lineAt i)).drop (3 * m)).take 3 = available_lines := by
  obtain ⟨k, hk, hk3⟩ : ∃ k, N = 3 * m + k ∧ 3 ≤ k := ⟨N - 3 * m, by omega, by omega⟩
  subst hk
  rw [List.range_add, List.map_append]
  rw [List.drop_left' (by simp)]
  obtain ⟨k', hk'⟩ : ∃ k', k = 3 + k' := ⟨k - 3, by omega⟩
  subst hk'
  rw [List.range_add, List.map_append, List.map_append]
  rw [List.take_left' (by simp)]
  have hr3 : List.range 3 = [0, 1, 2] := rfl
  have e0 : (3 * m + 0) % 3 = 0 := by omega
  have e1 : (3 * m + 1) % 3 = 1 := by omega
  have e2 : (3 * m + 2) % 3 = 2 := by omega
  simp [hr3, lineAt, e0, e1, e2, available_lines]

/-- C5: `_get_next_assignment_line` advances its counter by exactly one per
call and returns `available_lines[counter % 3]`, so starting from a fresh
counter, `N` sequential calls (i) produce exactly the rotation sequence
`lineAt 0, lineAt 1, …`, (ii) visit each of the three lines either
`⌊N/3⌋` or `⌈N/3⌉ = (N+2)/3` times, and (iii) every aligned cycle of three
consecutive calls is exactly `["line1", "line2", "line3"]` — no line repeats
before the other two have been visited within a full cycle. -/
theorem claim_C5 (s : SharedOrderManager) (N : Nat)
    (h0 : s.line_assignment_counter = 0) :
    (∀ t : SharedOrderManager,
        t.next_assignment_line.2.line_assignment_counter =
          t.line_assignment_counter + 1)
    ∧ (assignmentCalls s N).1 = (List.range N).map (fun i => lineAt i)
    ∧ (∀ name ∈ available_lines,
        (assignmentCalls s N).1.count name = N / 3 ∨
        (assignmentCalls s N).1.count name = (N + 2) / 3)
    ∧ (∀ m, 3 * m + 3 ≤ N →
        (((assignmentCalls s N).1.drop (3 * m)).take 3) = available_lines) := by
  have hseq : (assignmentCalls s N).1 = (List.range N).map (fun i => lineAt i) := by
    rw [assignmentCalls_eq, h0]
    simp
  refine ⟨fun t => rfl, hseq, ?_, ?_⟩
  · intro name hname
    obtain ⟨h1, h2, h3⟩ := count_lineAt N
    rw [hseq]
    have : name = "line1" ∨ name = "line2" ∨ name = "line3" := by
      simpa [available_lines] using hname
    rcases this with h | h | h <;> subst h
    · rw [h1]; omega
    · rw [h2]; omega
    · rw [h3]; omega
  · intro m hm
    rw [hseq]
    exact cycle_slice N m hm

/-- Witness for C5 at the fresh singleton state and `N = 7`. -/
theorem claim_C5_witness :
    ({} : SharedOrderManager).line_assignment_counter = 0 ∧
    (assignmentCalls {} 7).1 = (List.range 7).map (fun i => lineAt i) :=
  ⟨rfl, (claim_C5 {} 7 rfl).2.1⟩

/-! ### Claim C2: the class-C double-pass traversal -/

/-- Demo payload with one class-C (P3) product. -/
def p3DemoPayload : Payload :=
  { order_id := some "o1",
    items := [{ product_type := some "P3", quantity := some 1 }] }

/-- Directory state after ingesting the P3 demo payload. -/
def p3DemoManager : OrderManager :=
  (OrderManager.create_order_from_payload {} p3DemoPayload 0).2

/-- Locations visited when the P3 demo product is driven from `pending`
through its full traversal. -/
def p3TraversalVisits : List String :=
  driveVisits p3DemoManager "prod_p3_o1_001" 1 12

/-- C2: for every P3 product at `at_station_c`, `get_next_processing_step`
returns `StationB` when the history holds fewer than two `StationC` entries
and `QualityCheck` otherwise; and the P3 demo product driven from `pending`
through its full traversal visits `StationB` exactly twice and `StationC`
exactly twice before reaching quality check. -/
theorem claim_C2 (p : Product) (hty : p.product_type = .P3)
    (hst : p.status = .AT_STATION_C) :
    ((p.processing_history.filter (fun step => step.location = "StationC")).length < 2 →
        p.get_next_processing_step = some "StationB")
    ∧ (¬ (p.processing_history.filter (fun step => step.location = "StationC")).length < 2 →
        p.get_next_processing_step = some "QualityCheck")
    ∧ p3TraversalVisits
        = ["StationA", "StationB", "StationC", "StationB", "StationC",
           "QualityCheck", "Warehouse"]
    ∧ (p3TraversalVisits.takeWhile (fun l => l ≠ "QualityCheck")).count "StationB" = 2
    ∧ (p3TraversalVisits.takeWhile (fun l => l ≠ "QualityCheck")).count "StationC" = 2 := by
  refine ⟨?_, ?_, by decide, by decide, by decide⟩
  · intro h
    simp [Product.get_next_processing_step, Product.p3NextStep, hty, hst, h]
  · intro h
    simp [Product.get_next_processing_step, Product.p3NextStep, hty, hst, h]

/-- A P3 product sitting at station C with an empty history. -/
def p3AtCDemo : Product :=
  { product_id := "prod_p3_o1_001", product_type := .P3, status := .AT_STATION_C }

/-- Witness for C2 at a concrete P3 product at station C. -/
theorem claim_C2_witness :
    p3AtCDemo.product_type = .P3 ∧ p3AtCDemo.status = .AT_STATION_C ∧
    ((p3AtCDemo.processing_history.filter
        (fun step => step.location = "StationC")).length < 2 →
      p3AtCDemo.get_next_processing_step = some "StationB") :=
  ⟨rfl, rfl, (claim_C2 p3AtCDemo rfl rfl).1⟩

/-! ### Claim C6: the bounded decision queue drops the newest on overflow -/

theorem queue_fill (now : Nat) :
    ∀ (evs : List (String × EventData)) (st : CommanderQueueState),
      st.decision_queue.items.length + evs.length ≤ st.decision_queue.maxsize →
      evs.foldl (fun acc r => queue_decision_event acc r.1 r.2 now) st =
        { st with decision_queue :=
            { st.decision_queue with
                items := st.decision_queue.items ++
                  evs.map (fun r => mkDecisionEvent r now) } } := by
  intro evs
  induction evs with
  | nil => intro st h; simp
  | cons e rest ih =>
      intro st h
      have hlt : st.decision_queue.items.length < st.decision_queue.maxsize := by
        simp only [List.length_cons] at h; omega
      have hcond : ¬ (0 < st.decision_queue.maxsize ∧
          st.decision_queue.maxsize ≤ st.decision_queue.items.length) := by omega
      have hstep : queue_decision_event st e.1 e.2 now =
          { st with decision_queue :=
              { st.decision_queue with
                  items := st.decision_queue.items ++ [mkDecisionEvent e now] } } := by
        simp only [queue_decision_event, EventQueue.put_nowait, if_neg hcond,
          mkDecisionEvent]
      have hrest : (st.decision_queue.items ++ [mkDecisionEvent e now]).length
          + rest.length ≤ st.decision_queue.maxsize := by
        simp only [List.length_cons] at h
        simp only [List.length_append, List.length_cons, List.length_nil]
        omega
      simp only [List.foldl_cons]
      rw [hstep, ih _ hrest]
      simp

/-- Enqueue a list of events into a fresh commander state whose queue has
the given capacity. -/
def runEnqueues (cap : Nat) (evs : List (String × EventData)) (now : Nat) :
    CommanderQueueState :=
  evs.foldl (fun st r => queue_decision_event st r.1 r.2 now)
    { decision_queue := { items := [], maxsize := cap }, dropped_events := [] }

/-- C6: enqueuing `capacity + 1` events through `_queue_decision_event`
retains exactly the first `capacity` events in order, logs exactly the one
dropped (newest) event, and — the enqueue being a total function that
catches `QueueFull` — never propagates an exception. -/
theorem claim_C6 (cap : Nat) (evs : List (String × EventData)) (now : Nat)
    (hcap : 0 < cap) (hlen : evs.length = cap + 1) :
    (runEnqueues cap evs now).decision_queue.items
        = (evs.take cap).map (fun r => mkDecisionEvent r now)
    ∧ (runEnqueues cap evs now).decision_queue.items.length = cap
    ∧ (runEnqueues cap evs now).dropped_events = (evs.drop cap).map Prod.fst := by
  obtain ⟨last, hsplit⟩ : ∃ last, evs.drop cap = [last] := by
    apply List.length_eq_one.mp
    simp [hlen]
  have hsplitall : evs = evs.take cap ++ [last] := by
    rw [← hsplit, List.take_append_drop]
  have htake : (evs.take cap).length = cap := by
    rw [List.length_take, hlen]; omega
  have hfill := queue_fill now (evs.take cap)
    { decision_queue := { items := [], maxsize := cap }, dropped_events := [] }
    (by simp [htake])
  have hfull : runEnqueues cap evs now =
      queue_decision_event
        { decision_queue := { items := (evs.take cap).map (fun r => mkDecisionEvent r now),
                              maxsize := cap }, dropped_events := [] }
        last.1 last.2 now := by
    rw [runEnqueues]
    conv_lhs => rw [hsplitall]
    rw [List.foldl_append, hfill]
    simp
  have hcond2 : (0 < cap ∧ cap ≤
      ((evs.take cap).map (fun r => mkDecisionEvent r now)).length) := by
    refine ⟨hcap, ?_⟩
    rw [List.length_map, htake]
  have hdrop : queue_decision_event
      { decision_queue := { items := (evs.take cap).map (fun r => mkDecisionEvent r now),
                            maxsize := cap }, dropped_events := [] }
      last.1 last.2 now =
      { decision_queue := { items := (evs.take cap).map (fun r => mkDecisionEvent r now),
                            maxsize := cap }, dropped_events := [last.1] } := by
    simp only [queue_decision_event, EventQueue.put_nowait, if_pos hcond2]
    simp
  rw [hfull, hdrop]
  refine ⟨rfl, by rw [List.length_map, htake], by rw [hsplit]; simp⟩

/-- Witness for C6 at capacity 2 with three enqueued events. -/
theorem claim_C6_witness :
    (0 < 2 ∧ ([("a", ({} : EventData)), ("b", {}), ("c", {})]).length = 2 + 1)
    ∧ (runEnqueues 2 [("a", {}), ("b", {}), ("c", {})] 0).decision_queue.items.length = 2 :=
  ⟨⟨by decide, rfl⟩,
   (claim_C6 2 [("a", {}), ("b", {}), ("c", {})] 0 (by decide) rfl).2.1⟩

/-! ### Claim C4: command validation and dispatch filtering -/

/-- A syntactically valid charge command carrying no `target_level`
parameter at all. -/
def chargeNoLevel : Command := { action := some "charge", target := some "AGV_1" }

theorem validate_command_spec (c : Command) (h : validate_command c = true) :
    ∃ a t, c.action = some a ∧ a ∈ valid_actions ∧ c.target = some t ∧ t ∈ active_agvs
      ∧ (a = "move" → ∃ tp, c.params.target_point = some tp ∧ tp ∈ valid_points)
      ∧ (a = "charge" → c.params.target_level = none ∨
           ∃ n : Int, c.params.target_level = some (.num n) ∧ 0 ≤ n ∧ n ≤ 100) := by
  unfold validate_command at h
  cases hA : c.action with
  | none => rw [hA] at h; cases hT : c.target <;> rw [hT] at h <;> simp at h
  | some a =>
    cases hT : c.target with
    | none => rw [hA, hT] at h; simp at h
    | some t =>
      rw [hA, hT] at h
      by_cases h1 : a ∈ valid_actions
      case neg => simp [h1] at h
      by_cases h2 : t ∈ active_agvs
      case neg => simp [h1, h2] at h
      refine ⟨a, t, rfl, h1, rfl, h2, ?_, ?_⟩
      · intro hmove
        subst hmove
        cases hp : c.params.target_point with
        | none => rw [hp] at h; simp [h2] at h
        | some tp =>
          rw [hp] at h
          by_cases he : tp = ""
          · subst he; simp [h2] at h
          · simp [h2, he] at h
            exact ⟨tp, rfl, h.2⟩
      · intro hcharge
        subst hcharge
        cases hl : c.params.target_level with
        | none => exact Or.inl rfl
        | some v =>
          rw [hl] at h
          cases v with
          | num n =>
              refine Or.inr ⟨n, rfl, ?_⟩
              exact (by simpa [h2] using h : "charge" ∈ valid_actions ∧ 0 ≤ n ∧ n ≤ 100).2
          | str sv => simp [h2] at h

theorem mem_validate_fold (cmds : List Command) :
    ∀ acc : List Command × List (Option String),
      (∀ c ∈ acc.1, validate_command c = true) →
      ∀ c ∈ (cmds.foldl (fun acc cmd =>
          if validate_command cmd then
            if cmd.target ∈ acc.2 then acc
            else (acc.1 ++ [cmd], acc.2 ++ [cmd.target])
          else acc) acc).1, validate_command c = true := by
  induction cmds with
  | nil => intro acc hacc c hc; exact hacc c hc
  | cons cmd rest ih =>
      intro acc hacc c hc
      simp only [List.foldl_cons] at hc
      by_cases hv : validate_command cmd
      · by_cases hd : cmd.target ∈ acc.2
        · exact ih acc hacc c (by simpa [hv, hd] using hc)
        · refine ih _ ?_ c (by simpa [hv, hd] using hc)
          intro c2 hc2
          rcases List.mem_append.mp hc2 with hm | hm
          · exact hacc c2 hm
          · simp only [List.mem_singleton] at hm; subst hm; exact hv
      · exact ih acc hacc c (by simpa [hv] using hc)

/-- Every command surviving `_parse_agent_output`'s validation loop
satisfies `_validate_command`. -/
theorem validateAndDedup_valid (cmds : List Command) :
    ∀ c ∈ validateAndDedup cmds, validate_command c = true := by
  intro c hc
  exact mem_validate_fold cmds ([], []) (by intro c2 hc2; simp at hc2) c hc

/-- C4 fails as stated: a charge command with no `target_level` parameter is
dispatched (validated and kept) even though it has no numeric target_level
in `[0, 100]` — `_validate_command` substitutes the default 80 for the
missing parameter. -/
theorem claim_C4_counterexample :
    ¬ (∀ cmds : List Command, ∀ c ∈ validateAndDedup cmds,
        c.action = some "charge" →
        ∃ n : Int, c.params.target_level = some (.num n) ∧ 0 ≤ n ∧ n ≤ 100) := by
  intro hclaim
  have hmem : chargeNoLevel ∈ validateAndDedup [chargeNoLevel] := by decide
  obtain ⟨n, hn, _⟩ := hclaim [chargeNoLevel] chargeNoLevel hmem rfl
  simp [chargeNoLevel] at hn

/-- C4 (amended): a command is dispatched only if its action is in
`{move, load, unload, charge}` and its target names a vehicle known to the
line (`AGV_1`/`AGV_2`); a move command only if its `target_point` is in the
fixed topology `P0..P9`; a charge command only if its `target_level` —
taken as the default 80 when the parameter is absent — is numeric and in
`[0, 100]`; and every command failing `_validate_command` is filtered out
and never published. -/
theorem claim_C4_amended (cmds : List Command) :
    (∀ c ∈ validateAndDedup cmds,
       ∃ a t, c.action = some a ∧ a ∈ valid_actions
         ∧ c.target = some t ∧ t ∈ active_agvs
         ∧ (a = "move" → ∃ tp, c.params.target_point = some tp ∧ tp ∈ valid_points)
         ∧ (a = "charge" →
              c.params.target_level = none ∨
              ∃ n : Int, c.params.target_level = some (.num n) ∧ 0 ≤ n ∧ n ≤ 100))
    ∧ (∀ c ∈ cmds, validate_command c = false → c ∉ validateAndDedup cmds) := by
  constructor
  · intro c hc
    exact validate_command_spec c (validateAndDedup_valid cmds c hc)
  · intro c _ hbad hcmem
    have := validateAndDedup_valid cmds c hcmem
    rw [hbad] at this
    exact Bool.false_ne_true this

/-- A well-formed move command used to witness the amended C4. -/
def moveDemoCmd : Command :=
  { action := some "move", target := some "AGV_1",
    params := { target_point := some "P1" } }

/-- Witness for the amended C4 at a concrete dispatched move command. -/
theorem claim_C4_amended_witness :
    ∃ a t, moveDemoCmd.action = some a ∧ a ∈ valid_actions
      ∧ moveDemoCmd.target = some t ∧ t ∈ active_agvs
      ∧ (a = "move" →
          ∃ tp, moveDemoCmd.params.target_point = some tp ∧ tp ∈ valid_points)
      ∧ (a = "charge" →
          moveDemoCmd.params.target_level = none ∨
          ∃ n : Int, moveDemoCmd.params.target_level = some (.num n) ∧ 0 ≤ n ∧ n ≤ 100) :=
  (claim_C4_amended [moveDemoCmd]).1 moveDemoCmd (by decide)

/-! ### Frame lemmas for the directory operations -/

theorem foldl_fix {α β γ : Type} (f : β → α → β) (g : β → γ)
    (hf : ∀ b a, g (f b a) = g b) : ∀ (l : List α) (b : β), g (l.foldl f b) = g b := by
  intro l
  induction l with
  | nil => intro b; rfl
  | cons x xs ih => intro b; rw [List.foldl_cons, ih, hf]

theorem foldl_pred {α β : Type} (f : β → α → β) (P : β → Prop)
    (hf : ∀ b a, P b → P (f b a)) : ∀ (l : List α) (b : β), P b → P (l.foldl f b) := by
  intro l
  induction l with
  | nil => intro b hb; exact hb
  | cons x xs ih => intro b hb; exact ih (f b x) (hf b x hb)

theorem foldl_extends {α β γ : Type} (f : β → α → β) (g : β → List γ)
    (hf : ∀ b a, ∃ e, g (f b a) = g b ++ e) :
    ∀ (l : List α) (b : β), ∃ e, g (l.foldl f b) = g b ++ e := by
  intro l
  induction l with
  | nil => intro b; exact ⟨[], by simp⟩
  | cons x xs ih =>
      intro b
      obtain ⟨e1, he1⟩ := hf b x
      obtain ⟨e2, he2⟩ := ih (f b x)
      exact ⟨e1 ++ e2, by rw [List.foldl_cons, he2, he1, List.append_assoc]⟩

theorem nodup_append_single {α : Type} (l : List α) (a : α) (h : a ∉ l)
    (hn : l.Nodup) : (l ++ [a]).Nodup := by
  rw [List.nodup_append]
  refine ⟨hn, List.nodup_singleton a, ?_⟩
  intro x hx hax
  simp at hax
  subst hax
  exact h hx

theorem add_product_line_assignments (o : Order) (r : Nat) :
    (o.add_product r).line_assignments = o.line_assignments := by
  simp only [Order.add_product]
  split <;> rfl

theorem add_product_order_id (o : Order) (r : Nat) :
    (o.add_product r).order_id = o.order_id := by
  simp only [Order.add_product]
  split <;> rfl

theorem add_product_status_ne_completed (o : Order) (r : Nat)
    (h : o.status ≠ .COMPLETED) : (o.add_product r).status ≠ .COMPLETED := by
  simp only [Order.add_product]
  split
  · simp
  · simpa using h

theorem assign_product_to_line_status (o : Order) (pid line : String) :
    (o.assign_product_to_line pid line).status = o.status := by
  simp only [Order.assign_product_to_line]
  split <;> rfl

theorem assign_product_to_line_products (o : Order) (pid line : String) :
    (o.assign_product_to_line pid line).products = o.products := by
  simp only [Order.assign_product_to_line]
  split <;> rfl

theorem createProductStep_fst_la (oid tps : String) (now : Nat)
    (acc : Order × OrderManager × Nat) (i : Nat) :
    (createProductStep oid tps now acc i).1.line_assignments
      = acc.1.line_assignments := by
  obtain ⟨ord, mgr, c⟩ := acc
  simp [createProductStep, add_product_line_assignments]

theorem createProductStep_mgr_orders (oid tps : String) (now : Nat)
    (acc : Order × OrderManager × Nat) (i : Nat) :
    (createProductStep oid tps now acc i).2.1.orders = acc.2.1.orders := by
  obtain ⟨ord, mgr, c⟩ := acc
  simp [createProductStep, OrderManager.alloc]

theorem createProductStep_mgr_active (oid tps : String) (now : Nat)
    (acc : Order × OrderManager × Nat) (i : Nat) :
    (createProductStep oid tps now acc i).2.1.active_order_ids
      = acc.2.1.active_order_ids := by
  obtain ⟨ord, mgr, c⟩ := acc
  simp [createProductStep, OrderManager.alloc]

theorem createProductStep_store_ext (oid tps : String) (now : Nat)
    (acc : Order × OrderManager × Nat) (i : Nat) :
    ∃ e, (createProductStep oid tps now acc i).2.1.store = acc.2.1.store ++ e := by
  obtain ⟨ord, mgr, c⟩ := acc
  refine ⟨[(mgr.next_ref,
    OrderManager.create_product_from_item (genProductId tps oid c) tps now)], ?_⟩
  simp [createProductStep, OrderManager.alloc]

theorem createProductStep_status (oid tps : String) (now : Nat)
    (acc : Order × OrderManager × Nat) (i : Nat)
    (h : acc.1.status ≠ .COMPLETED) :
    (createProductStep oid tps now acc i).1.status ≠ .COMPLETED := by
  obtain ⟨ord, mgr, c⟩ := acc
  simpa [createProductStep] using add_product_status_ne_completed _ _ h

theorem createItemsStep_fst_la (oid : String) (now : Nat)
    (acc : Order × OrderManager × Nat) (item : OrderItem) :
    (createItemsStep oid now acc item).1.line_assignments = acc.1.line_assignments := by
  unfold createItemsStep
  exact foldl_fix _ (fun a => a.1.line_assignments)
    (createProductStep_fst_la oid _ now) _ acc

theorem createItemsStep_mgr_orders (oid : String) (now : Nat)
    (acc : Order × OrderManager × Nat) (item : OrderItem) :
    (createItemsStep oid now acc item).2.1.orders = acc.2.1.orders := by
  unfold createItemsStep
  exact foldl_fix _ (fun a => a.2.1.orders)
    (createProductStep_mgr_orders oid _ now) _ acc

theorem createItemsStep_mgr_active (oid : String) (now : Nat)
    (acc : Order × OrderManager × Nat) (item : OrderItem) :
    (createItemsStep oid now acc item).2.1.active_order_ids
      = acc.2.1.active_order_ids := by
  unfold createItemsStep
  exact foldl_fix _ (fun a => a.2.1.active_order_ids)
    (createProductStep_mgr_active oid _ now) _ acc

theorem createItemsStep_store_ext (oid : String) (now : Nat)
    (acc : Order × OrderManager × Nat) (item : OrderItem) :
    ∃ e, (createItemsStep oid now acc item).2.1.store = acc.2.1.store ++ e := by
  unfold createItemsStep
  exact foldl_extends _ (fun a => a.2.1.store)
    (createProductStep_store_ext oid _ now) _ acc

theorem createItemsStep_status (oid : String) (now : Nat)
    (acc : Order × OrderManager × Nat) (item : OrderItem)
    (h : acc.1.status ≠ .COMPLETED) :
    (createItemsStep oid now acc item).1.status ≠ .COMPLETED := by
  unfold createItemsStep
  exact foldl_pred _ (fun a => a.1.status ≠ .COMPLETED)
    (createProductStep_status oid _ now) _ acc h

theorem createFold_fst_la (items : List OrderItem) (oid : String) (now : Nat)
    (acc : Order × OrderManager × Nat) :
    (items.foldl (createItemsStep oid now) acc).1.line_assignments
      = acc.1.line_assignments :=
  foldl_fix _ (fun a => a.1.line_assignments)
    (createItemsStep_fst_la oid now) items acc

theorem createFold_mgr_orders (items : List OrderItem) (oid : String) (now : Nat)
    (acc : Order × OrderManager × Nat) :
    (items.foldl (createItemsStep oid now) acc).2.1.orders = acc.2.1.orders :=
  foldl_fix _ (fun a => a.2.1.orders)
    (createItemsStep_mgr_orders oid now) items acc

theorem createFold_mgr_active (items : List OrderItem) (oid : String) (now : Nat)
    (acc : Order × OrderManager × Nat) :
    (items.foldl (createItemsStep oid now) acc).2.1.active_order_ids
      = acc.2.1.active_order_ids :=
  foldl_fix _ (fun a => a.2.1.active_order_ids)
    (createItemsStep_mgr_active oid now) items acc

theorem createFold_store_ext (items : List OrderItem) (oid : String) (now : Nat)
    (acc : Order × OrderManager × Nat) :
    ∃ e, (items.foldl (createItemsStep oid now) acc).2.1.store = acc.2.1.store ++ e :=
  foldl_extends _ (fun a => a.2.1.store)
    (createItemsStep_store_ext oid now) items acc

theorem createFold_status (items : List OrderItem) (oid : String) (now : Nat)
    (acc : Order × OrderManager × Nat) (h : acc.1.status ≠ .COMPLETED) :
    (items.foldl (createItemsStep oid now) acc).1.status ≠ .COMPLETED :=
  foldl_pred _ (fun a => a.1.status ≠ .COMPLETED)
    (createItemsStep_status oid now) items acc h

theorem update_product_status_orders (m : OrderManager) (pid : String)
    (st : ProductStatus) (loc agv : Option String) (now : Nat) :
    (m.update_product_status pid st loc agv now).orders = m.orders := by
  unfold OrderManager.update_product_status
  split
  · rfl
  · split <;> rfl

theorem update_product_status_active (m : OrderManager) (pid : String)
    (st : ProductStatus) (loc agv : Option String) (now : Nat) :
    (m.update_product_status pid st loc agv now).active_order_ids
      = m.active_order_ids := by
  unfold OrderManager.update_product_status
  split
  · rfl
  · split <;> rfl

theorem update_product_status_products (m : OrderManager) (pid : String)
    (st : ProductStatus) (loc agv : Option String) (now : Nat) :
    (m.update_product_status pid st loc agv now).products = m.products := by
  unfold OrderManager.update_product_status
  split
  · rfl
  · split <;> rfl

theorem update_store_lookup (m : OrderManager) (pid : String)
    (st : ProductStatus) (loc agv : Option String) (now : Nat) (r : Nat) :
    dictGet (m.update_product_status pid st loc agv now).store r = dictGet m.store r
    ∨ ∃ p, dictGet m.products pid = some r ∧ dictGet m.store r = some p ∧
        dictGet (m.update_product_status pid st loc agv now).store r
          = some (applyStatusUpdate p st loc agv now) := by
  cases hpr : dictGet m.products pid with
  | none => left; simp [OrderManager.update_product_status, hpr]
  | some ref =>
    cases hst : dictGet m.store ref with
    | none => left; simp [OrderManager.update_product_status, hpr, hst]
    | some p =>
      by_cases hr : r = ref
      · subst hr
        right
        exact ⟨p, rfl, hst,
          by simp [OrderManager.update_product_status, hpr, hst, dictGet_dictSet_self]⟩
      · left
        simp [OrderManager.update_product_status, hpr, hst,
          dictGet_dictSet_ne _ _ _ _ hr]

theorem applyStatusUpdate_history (p : Product) (st : ProductStatus)
    (loc agv : Option String) (now : Nat) :
    p.processing_history <+: (applyStatusUpdate p st loc agv now).processing_history := by
  unfold applyStatusUpdate Product.add_processing_step
  by_cases hst : st = .IN_WAREHOUSE <;> cases loc <;> cases agv <;> simp [hst]

theorem applyStatusUpdate_completion (p : Product) (st : ProductStatus)
    (loc agv : Option String) (now : Nat) :
    (applyStatusUpdate p st loc agv now).completion_time =
      if st = .IN_WAREHOUSE then some now else p.completion_time := by
  unfold applyStatusUpdate Product.add_processing_step
  by_cases hst : st = .IN_WAREHOUSE <;> cases loc <;> cases agv <;> simp [hst]

theorem assign_order_to_line_store (m : OrderManager) (oid line : String)
    (pids : Option (List String)) :
    (m.assign_order_to_line oid line pids).store = m.store := by
  unfold OrderManager.assign_order_to_line
  split <;> rfl

theorem assign_order_to_line_active (m : OrderManager) (oid line : String)
    (pids : Option (List String)) :
    (m.assign_order_to_line oid line pids).active_order_ids = m.active_order_ids := by
  unfold OrderManager.assign_order_to_line
  split <;> rfl

theorem assign_order_to_line_products_map (m : OrderManager) (oid line : String)
    (pids : Option (List String)) :
    (m.assign_order_to_line oid line pids).products = m.products := by
  unfold OrderManager.assign_order_to_line
  split <;> rfl

theorem assign_order_to_line_orders_char (m : OrderManager) (oid line : String)
    (pids : Option (List String)) (k : String) (o' : Order)
    (h : dictGet (m.assign_order_to_line oid line pids).orders k = some o') :
    dictGet m.orders k = some o' ∨
      ∃ (o : Order) (pl : List String), dictGet m.orders k = some o ∧
        o' = pl.foldl (fun o pid => o.assign_product_to_line pid line) o := by
  cases hord : dictGet m.orders oid with
  | none =>
      left
      simpa [OrderManager.assign_order_to_line, hord] using h
  | some o =>
      by_cases hk : k = oid
      · subst hk
        right
        cases pids with
        | some l =>
            have hv : dictGet (m.assign_order_to_line k line (some l)).orders k
                = some (l.foldl (fun o pid => o.assign_product_to_line pid line) o) := by
              simp [OrderManager.assign_order_to_line, hord, dictGet_dictSet_self]
            rw [hv] at h
            simp only [Option.some.injEq] at h
            exact ⟨o, l, hord, h.symm⟩
        | none =>
            have hv : dictGet (m.assign_order_to_line k line none).orders k
                = some (((o.get_pending_products m.store).filterMap
                    (fun r => (dictGet m.store r).map Product.product_id)).foldl
                      (fun o pid => o.assign_product_to_line pid line) o) := by
              simp [OrderManager.assign_order_to_line, hord, dictGet_dictSet_self]
            rw [hv] at h
            simp only [Option.some.injEq] at h
            exact ⟨o, _, hord, h.symm⟩
      · left
        have hv : dictGet (m.assign_order_to_line oid line pids).orders k
            = dictGet m.orders k := by
          cases pids <;>
            simp [OrderManager.assign_order_to_line, hord,
              dictGet_dictSet_ne _ _ _ _ hk]
        rwa [hv] at h

theorem assign_fold_status (o : Order) (line : String) (pl : List String) :
    (pl.foldl (fun o pid => o.assign_product_to_line pid line) o).status = o.status :=
  foldl_fix _ Order.status (fun b a => assign_product_to_line_status b a line) pl o

theorem assign_fold_products (o : Order) (line : String) (pl : List String) :
    (pl.foldl (fun o pid => o.assign_product_to_line pid line) o).products = o.products :=
  foldl_fix _ Order.products (fun b a => assign_product_to_line_products b a line) pl o

theorem assign_product_to_line_nodup (o : Order) (pid line : String)
    (h : ∀ l ls, dictGet o.line_assignments l = some ls → ls.Nodup) :
    ∀ l ls, dictGet (o.assign_product_to_line pid line).line_assignments l = some ls →
      ls.Nodup := by
  intro l ls hget
  have hcurnd : ((dictGet o.line_assignments line).getD []).Nodup := by
    cases hg : dictGet o.line_assignments line with
    | none => simp
    | some ls0 => simpa [hg] using h line ls0 hg
  simp only [Order.assign_product_to_line] at hget
  by_cases hmem : pid ∈ (dictGet o.line_assignments line).getD []
  · rw [if_pos hmem] at hget
    simp only at hget
    by_cases hl : l = line
    · subst hl
      rw [dictGet_dictSet_self] at hget
      simp only [Option.some.injEq] at hget
      subst hget
      exact hcurnd
    · rw [dictGet_dictSet_ne _ _ _ _ hl] at hget
      exact h l ls hget
  · rw [if_neg hmem] at hget
    simp only at hget
    by_cases hl : l = line
    · subst hl
      rw [dictGet_dictSet_self] at hget
      simp only [Option.some.injEq] at hget
      subst hget
      exact nodup_append_single _ _ hmem hcurnd
    · rw [dictGet_dictSet_ne _ _ _ _ hl] at hget
      exact h l ls hget

theorem assign_fold_nodup (o : Order) (line : String) (pl : List String)
    (h : ∀ l ls, dictGet o.line_assignments l = some ls → ls.Nodup) :
    ∀ l ls,
      dictGet (pl.foldl (fun o pid => o.assign_product_to_line pid line) o).line_assignments l
        = some ls → ls.Nodup :=
  foldl_pred _ (fun o => ∀ l ls, dictGet o.line_assignments l = some ls → ls.Nodup)
    (fun b a hb => assign_product_to_line_nodup b a line hb) pl o h

theorem completeCheckStep_store (acc : OrderManager) (oid : String) :
    (completeCheckStep acc oid).store = acc.store := by
  unfold completeCheckStep
  split
  · rfl
  · split <;> rfl

theorem completeCheckStep_products (acc : OrderManager) (oid : String) :
    (completeCheckStep acc oid).products = acc.products := by
  unfold completeCheckStep
  split
  · rfl
  · split <;> rfl

theorem completeCheckStep_orders_char (acc : OrderManager) (oid k : String)
    (o' : Order) (h : dictGet (completeCheckStep acc oid).orders k = some o') :
    dictGet acc.orders k = some o' ∨
      (k = oid ∧ ∃ o, dictGet acc.orders oid = some o ∧
        o.is_completed acc.store = true ∧ o' = { o with status := .COMPLETED }) := by
  cases hord : dictGet acc.orders oid with
  | none =>
      left
      simpa [completeCheckStep, hord] using h
  | some o =>
      by_cases hic : o.is_completed acc.store
      · by_cases hk : k = oid
        · subst hk
          right
          have hv : dictGet (completeCheckStep acc k).orders k
              = some { o with status := .COMPLETED } := by
            simp [completeCheckStep, hord, hic, dictGet_dictSet_self]
          rw [hv] at h
          simp only [Option.some.injEq] at h
          exact ⟨rfl, o, rfl, hic, h.symm⟩
        · left
          have hv : dictGet (completeCheckStep acc oid).orders k
              = dictGet acc.orders k := by
            simp [completeCheckStep, hord, hic, dictGet_dictSet_ne _ _ _ _ hk]
          rwa [hv] at h
      · left
        simpa [completeCheckStep, hord, hic] using h

theorem completeCheckFold_orders_char (l : List String) :
    ∀ (acc : OrderManager) (k : String) (o' : Order),
      dictGet (l.foldl completeCheckStep acc).orders k = some o' →
      dictGet acc.orders k = some o' ∨
        ∃ o, dictGet acc.orders k = some o ∧ o' = { o with status := .COMPLETED } := by
  induction l with
  | nil => intro acc k o' h; exact Or.inl h
  | cons x xs ih =>
      intro acc k o' h
      rcases ih (completeCheckStep acc x) k o' h with h1 | ⟨o, ho, rfl⟩
      · rcases completeCheckStep_orders_char acc x k o' h1 with h2 | ⟨rfl, o, ho, hic, rfl⟩
        · exact Or.inl h2
        · exact Or.inr ⟨o, ho, rfl⟩
      · rcases completeCheckStep_orders_char acc x k o ho with h2 | ⟨rfl, o2, ho2, hic, rfl⟩
        · exact Or.inr ⟨o, h2, rfl⟩
        · exact Or.inr ⟨o2, ho2, rfl⟩

theorem initOrder_la (oid : String) (now : Nat) (d : Option Nat) :
    (initOrder oid now d).line_assignments = [] := by
  unfold initOrder
  cases d <;> rfl

theorem initOrder_status (oid : String) (now : Nat) (d : Option Nat) :
    (initOrder oid now d).status = .PENDING := by
  unfold initOrder
  cases d <;> rfl

theorem mem_setAdd {α : Type} [DecidableEq α] (s : List α) (a x : α) :
    x ∈ setAdd s a ↔ x ∈ s ∨ x = a := by
  unfold setAdd
  by_cases h : a ∈ s
  · rw [if_pos h]
    constructor
    · exact Or.inl
    · rintro (hx | rfl)
      · exact hx
      · exact h
  · rw [if_neg h]
    simp

theorem mem_setDiscard {α : Type} [DecidableEq α] (s : List α) (a x : α) :
    x ∈ setDiscard s a ↔ x ∈ s ∧ x ≠ a := by
  simp [setDiscard]

theorem create_orders_char (m : OrderManager) (payload : Payload) (now : Nat)
    (k : String) (o' : Order)
    (h : dictGet (m.create_order_from_payload payload now).2.orders k = some o') :
    dictGet m.orders k = some o' ∨
      (payload.order_id = some k ∧ dictGet m.orders k = none ∧
        o'.line_assignments = [] ∧ o'.status ≠ .COMPLETED) := by
  cases hid : payload.order_id with
  | none => left; simpa [OrderManager.create_order_from_payload, hid] using h
  | some oid =>
    cases hord : dictGet m.orders oid with
    | some ex =>
        left
        simpa [OrderManager.create_order_from_payload, hid, hord] using h
    | none =>
      by_cases hk : k = oid
      · subst hk
        right
        have hv : dictGet (m.create_order_from_payload payload now).2.orders k
            = some ((payload.items.foldl (createItemsStep k now)
                (initOrder k now payload.deadline, m, 1)).1) := by
          simp [OrderManager.create_order_from_payload, hid, hord, dictGet_dictSet_self]
        rw [hv] at h
        simp only [Option.some.injEq] at h
        subst h
        refine ⟨rfl, hord, ?_, ?_⟩
        · rw [createFold_fst_la, initOrder_la]
        · exact createFold_status _ _ _ _ (by rw [initOrder_status]; simp)
      · left
        have hv : dictGet (m.create_order_from_payload payload now).2.orders k
            = dictGet m.orders k := by
          simp only [OrderManager.create_order_from_payload, hid, hord]
          rw [dictGet_dictSet_ne _ _ _ _ hk, createFold_mgr_orders]
        rwa [hv] at h


/-! ### Claim C9: line assignments -/

/-- Every line's product-id list in every stored order is duplicate-free. -/
def LineListsNodup (m : OrderManager) : Prop :=
  ∀ oid o line lst, dictGet m.orders oid = some o →
    dictGet o.line_assignments line = some lst → lst.Nodup

theorem applyOp_lineListsNodup (m : OrderManager) (op : DirOp)
    (h : LineListsNodup m) : LineListsNodup (m.applyOp op) := by
  cases op with
  | createOrder payload now =>
      intro oid o line lst ho hl
      rcases create_orders_char m payload now oid o ho with hold | ⟨_, _, hla, _⟩
      · exact h oid o line lst hold hl
      · rw [hla] at hl
        simp [dictGet] at hl
  | updateStatus pid st loc agv now =>
      intro oid o line lst ho hl
      simp only [OrderManager.applyOp] at ho
      rw [update_product_status_orders] at ho
      exact h oid o line lst ho hl
  | assignLine aoid aline pids =>
      intro oid o line lst ho hl
      rcases assign_order_to_line_orders_char m aoid aline pids oid o ho with
        hold | ⟨o0, pl, ho0, rfl⟩
      · exact h oid o line lst hold hl
      · exact assign_fold_nodup o0 aline pl (fun l ls => h oid o0 l ls ho0) line lst hl
  | completeCheck =>
      intro oid o line lst ho hl
      rcases completeCheckFold_orders_char m.active_order_ids m oid o ho with
        hold | ⟨o0, ho0, rfl⟩
      · exact h oid o line lst hold hl
      · exact h oid o0 line lst ho0 hl

theorem runOps_lineListsNodup (ops : List DirOp) :
    LineListsNodup (OrderManager.runOps {} ops) := by
  unfold OrderManager.runOps
  refine foldl_pred _ LineListsNodup applyOp_lineListsNodup ops {} ?_
  intro oid o line lst ho
  simp [dictGet] at ho

/-- An order whose product `p1` has been assigned to two different lines. -/
def twoLineOrder : Order :=
  (({ order_id := "o1" } : Order).assign_product_to_line "p1" "line1").assign_product_to_line
    "p1" "line2"

/-- C9 fails as stated: `assign_product_to_line` only checks membership in
the target line's own list, so assigning the same product id to two
different lines puts it into both lists — a product id is not confined to
at most one line's list. -/
theorem claim_C9_counterexample :
    dictGet twoLineOrder.line_assignments "line1" = some ["p1"]
    ∧ dictGet twoLineOrder.line_assignments "line2" = some ["p1"]
    ∧ "line1" ≠ "line2" := by
  refine ⟨by decide, by decide, by decide⟩

/-- C9 (amended): within any single line's list a product id appears at
most once — every line list is duplicate-free after any
`assign_product_to_line` call on an order whose lists are duplicate-free,
and in every state reachable through the directory's operations (a product
may however appear in several different lines' lists). -/
theorem claim_C9_amended (ops : List DirOp) :
    (∀ (o : Order) (pid line : String),
        (∀ l ls, dictGet o.line_assignments l = some ls → ls.Nodup) →
        (∀ l ls, dictGet (o.assign_product_to_line pid line).line_assignments l = some ls →
          ls.Nodup))
    ∧ (∀ oid o line lst,
        dictGet (OrderManager.runOps {} ops).orders oid = some o →
        dictGet o.line_assignments line = some lst → lst.Nodup) :=
  ⟨fun o pid line h => assign_product_to_line_nodup o pid line h,
   runOps_lineListsNodup ops⟩

/-- Witness for the amended C9 at a concrete single assignment. -/
theorem claim_C9_amended_witness :
    dictGet (({ order_id := "o1" } : Order).assign_product_to_line "p1" "line1").line_assignments
        "line1" = some ["p1"]
    ∧ (["p1"] : List String).Nodup :=
  ⟨by decide,
   (claim_C9_amended []).1 { order_id := "o1" } "p1" "line1"
     (by intro l ls h; simp [dictGet] at h) "line1" ["p1"] (by decide)⟩


theorem create_store_ext (m : OrderManager) (payload : Payload) (now : Nat) :
    ∃ e, (m.create_order_from_payload payload now).2.store = m.store ++ e := by
  cases hid : payload.order_id with
  | none => exact ⟨[], by simp [OrderManager.create_order_from_payload, hid]⟩
  | some oid =>
    cases hord : dictGet m.orders oid with
    | some ex => exact ⟨[], by simp [OrderManager.create_order_from_payload, hid, hord]⟩
    | none =>
      obtain ⟨e, he⟩ := createFold_store_ext payload.items oid now
        (initOrder oid now payload.deadline, m, 1)
      refine ⟨e, ?_⟩
      simp only [OrderManager.create_order_from_payload, hid, hord]
      exact he

theorem complete_order_check_store (m : OrderManager) :
    m.complete_order_check.store = m.store := by
  unfold OrderManager.complete_order_check
  exact foldl_fix completeCheckStep OrderManager.store completeCheckStep_store
    m.active_order_ids m

theorem applyOp_store_char (m : OrderManager) (op : DirOp) (ref : Nat) (p : Product)
    (h : dictGet m.store ref = some p) :
    ∃ p', dictGet (m.applyOp op).store ref = some p' ∧
      p.processing_history <+: p'.processing_history ∧
      (p'.completion_time = p.completion_time ∨
        ∃ pid loc agv now2, op = .updateStatus pid .IN_WAREHOUSE loc agv now2 ∧
          p'.completion_time = some now2) := by
  cases op with
  | createOrder payload now =>
      obtain ⟨e, he⟩ := create_store_ext m payload now
      refine ⟨p, ?_, List.prefix_rfl, Or.inl rfl⟩
      simp only [OrderManager.applyOp]
      rw [he]
      exact dictGet_append_left _ _ _ _ h
  | updateStatus pid st loc agv now =>
      rcases update_store_lookup m pid st loc agv now ref with heq | ⟨p0, hpr, hst, hv⟩
      · refine ⟨p, ?_, List.prefix_rfl, Or.inl rfl⟩
        simp only [OrderManager.applyOp]
        rw [heq, h]
      · have hp0 : p0 = p := by
          rw [h] at hst
          exact ((Option.some.injEq _ _).mp hst).symm
        subst hp0
        refine ⟨applyStatusUpdate p0 st loc agv now,
          by simpa [OrderManager.applyOp] using hv,
          applyStatusUpdate_history p0 st loc agv now, ?_⟩
        by_cases hw : st = .IN_WAREHOUSE
        · right
          exact ⟨pid, loc, agv, now, by rw [hw],
            by rw [applyStatusUpdate_completion, if_pos hw]⟩
        · left
          rw [applyStatusUpdate_completion, if_neg hw]
  | assignLine oid line pids =>
      refine ⟨p, ?_, List.prefix_rfl, Or.inl rfl⟩
      simp only [OrderManager.applyOp]
      rw [assign_order_to_line_store]
      exact h
  | completeCheck =>
      refine ⟨p, ?_, List.prefix_rfl, Or.inl rfl⟩
      simp only [OrderManager.applyOp]
      rw [complete_order_check_store]
      exact h

theorem runOps_history (ops : List DirOp) :
    ∀ (m : OrderManager) (ref : Nat) (p : Product),
      dictGet m.store ref = some p →
      ∃ p', dictGet (m.runOps ops).store ref = some p' ∧
        p.processing_history <+: p'.processing_history := by
  induction ops with
  | nil => intro m ref p h; exact ⟨p, h, List.prefix_rfl⟩
  | cons op rest ih =>
      intro m ref p h
      obtain ⟨p1, h1, hpre1, _⟩ := applyOp_store_char m op ref p h
      obtain ⟨p2, h2, hpre2⟩ := ih (m.applyOp op) ref p1 h1
      exact ⟨p2, h2, hpre1.trans hpre2⟩

/-! ### Claim C8: history growth and the completion timestamp -/

/-- An order payload with one P1 product, for the C8 scenario. -/
def c8Payload : Payload :=
  { order_id := some "o1",
    items := [{ product_type := some "P1", quantity := some 1 }] }

def c8M1 : OrderManager :=
  ((OrderManager.create_order_from_payload {} c8Payload 0).2).update_product_status
    "prod_p1_o1_001" .IN_WAREHOUSE (some "Warehouse") none 1

def c8M2 : OrderManager :=
  c8M1.update_product_status "prod_p1_o1_001" .IN_WAREHOUSE (some "Warehouse") none 2

/-- C8 fails as stated: `update_product_status` stamps `completion_time`
afresh on every transition whose new status is `in_warehouse`, so a second
in-warehouse update overwrites the already-set timestamp — it is not
assigned exactly once. -/
theorem claim_C8_counterexample :
    (dictGet c8M1.store 0).map Product.completion_time = some (some 1)
    ∧ (dictGet c8M2.store 0).map Product.completion_time = some (some 2)
    ∧ (some 1 : Option Nat) ≠ some 2 := by
  refine ⟨by decide, by decide, by decide⟩

/-- C8 (amended): for every Product object and every sequence of directory
operations the processing history only ever grows (the old history is a
prefix of the new one), and `completion_time` changes only on an
`update_product_status` call whose new status is `in_warehouse`, where it is
set to that call's timestamp — it is never set on any other status, but it
is re-set (possibly overwritten) on every such in-warehouse transition. -/
theorem claim_C8_amended (ops : List DirOp) (m : OrderManager) (op : DirOp) :
    (∀ ref p, dictGet m.store ref = some p →
       ∃ p', dictGet (m.runOps ops).store ref = some p' ∧
         p.processing_history <+: p'.processing_history)
    ∧ (∀ ref p p', dictGet m.store ref = some p →
         dictGet (m.applyOp op).store ref = some p' →
         p'.completion_time = p.completion_time ∨
           ∃ pid loc agv now2, op = .updateStatus pid .IN_WAREHOUSE loc agv now2 ∧
             p'.completion_time = some now2) := by
  constructor
  · intro ref p h
    exact runOps_history ops m ref p h
  · intro ref p p' h h'
    obtain ⟨p2, h2, _, hcomp⟩ := applyOp_store_char m op ref p h
    rw [h'] at h2
    obtain rfl : p' = p2 := (Option.some.injEq _ _).mp h2
    exact hcomp

/-- A one-product store used to witness the amended C8. -/
def demoStoreProduct : Product := { product_id := "p", product_type := .P1 }

/-- A manager whose store holds one product at ref 0. -/
def demoStoreManager : OrderManager := { store := [(0, demoStoreProduct)] }

/-- Witness for the amended C8 at a concrete one-product store. -/
theorem claim_C8_amended_witness :
    ∃ p', dictGet (OrderManager.runOps demoStoreManager []).store 0 = some p' ∧
      demoStoreProduct.processing_history <+: p'.processing_history :=
  (claim_C8_amended [] demoStoreManager DirOp.completeCheck).1 0 demoStoreProduct
    (by decide)

theorem completeCheckStep_miss (acc : OrderManager) (oid : String)
    (hord : dictGet acc.orders oid = none) : completeCheckStep acc oid = acc := by
  simp [completeCheckStep, hord]

theorem completeCheckStep_skip (acc : OrderManager) (oid : String) (o : Order)
    (hord : dictGet acc.orders oid = some o)
    (hic : ¬ o.is_completed acc.store = true) : completeCheckStep acc oid = acc := by
  simp [completeCheckStep, hord, hic]

theorem completeCheckStep_flip (acc : OrderManager) (oid : String) (o : Order)
    (hord : dictGet acc.orders oid = some o)
    (hic : o.is_completed acc.store = true) :
    dictGet (completeCheckStep acc oid).orders oid = some { o with status := .COMPLETED }
    ∧ oid ∉ (completeCheckStep acc oid).active_order_ids := by
  constructor
  · simp [completeCheckStep, hord, hic, dictGet_dictSet_self]
  · simp [completeCheckStep, hord, hic, mem_setDiscard]

theorem completeCheckStep_orders_ne (acc : OrderManager) (oid k : String)
    (hk : k ≠ oid) :
    dictGet (completeCheckStep acc oid).orders k = dictGet acc.orders k := by
  cases hord : dictGet acc.orders oid with
  | none => simp [completeCheckStep, hord]
  | some o =>
      by_cases hic : o.is_completed acc.store = true
      · simp [completeCheckStep, hord, hic, dictGet_dictSet_ne _ _ _ _ hk]
      · simp [completeCheckStep, hord, hic]

theorem completeCheckStep_active_sub (acc : OrderManager) (oid x : String)
    (h : x ∈ (completeCheckStep acc oid).active_order_ids) :
    x ∈ acc.active_order_ids := by
  cases hord : dictGet acc.orders oid with
  | none => rwa [completeCheckStep_miss acc oid hord] at h
  | some o =>
      by_cases hic : o.is_completed acc.store = true
      · have hv : (completeCheckStep acc oid).active_order_ids
            = setDiscard acc.active_order_ids oid := by
          simp [completeCheckStep, hord, hic]
        rw [hv, mem_setDiscard] at h
        exact h.1
      · rwa [completeCheckStep_skip acc oid o hord hic] at h

theorem completeCheckFold_orders_notin (l : List String) :
    ∀ (acc : OrderManager) (oid : String), oid ∉ l →
      dictGet (l.foldl completeCheckStep acc).orders oid = dictGet acc.orders oid := by
  induction l with
  | nil => intro acc oid _; rfl
  | cons x xs ih =>
      intro acc oid h
      rw [List.foldl_cons, ih _ _ (fun hx => h (List.mem_cons_of_mem x hx)),
        completeCheckStep_orders_ne acc x oid (fun he => h (he ▸ List.mem_cons_self x xs))]

theorem completeCheckFold_active_sub (l : List String) :
    ∀ (acc : OrderManager) (x : String),
      x ∈ (l.foldl completeCheckStep acc).active_order_ids →
      x ∈ acc.active_order_ids := by
  induction l with
  | nil => intro acc x h; exact h
  | cons y ys ih =>
      intro acc x h
      rw [List.foldl_cons] at h
      exact completeCheckStep_active_sub acc y x (ih _ x h)

theorem completeCheckFold_store (l : List String) (acc : OrderManager) :
    (l.foldl completeCheckStep acc).store = acc.store :=
  foldl_fix completeCheckStep OrderManager.store completeCheckStep_store l acc

theorem completeCheckFold_active_not_completed (l : List String) :
    ∀ (acc : OrderManager) (oid : String), oid ∈ l →
      ∀ o, oid ∈ (l.foldl completeCheckStep acc).active_order_ids →
        dictGet (l.foldl completeCheckStep acc).orders oid = some o →
        o.is_completed (l.foldl completeCheckStep acc).store = false := by
  induction l with
  | nil => intro acc oid h; simp at h
  | cons x xs ih =>
      intro acc oid hmem o hact hord
      rw [List.foldl_cons] at hact hord ⊢
      rcases List.mem_cons.mp hmem with rfl | hmemx
      · cases hordx : dictGet acc.orders oid with
        | none =>
            rw [completeCheckStep_miss acc oid hordx] at hact hord ⊢
            by_cases hxs : oid ∈ xs
            · exact ih acc oid hxs o hact hord
            · rw [completeCheckFold_orders_notin xs acc oid hxs, hordx] at hord
              cases hord
        | some o0 =>
            by_cases hic : o0.is_completed acc.store = true
            · have hflip := completeCheckStep_flip acc oid o0 hordx hic
              exact absurd (completeCheckFold_active_sub xs _ oid hact) hflip.2
            · rw [completeCheckStep_skip acc oid o0 hordx hic] at hact hord ⊢
              by_cases hxs : oid ∈ xs
              · exact ih acc oid hxs o hact hord
              · rw [completeCheckFold_orders_notin xs acc oid hxs, hordx] at hord
                obtain rfl : o0 = o := (Option.some.injEq _ _).mp hord
                rw [completeCheckFold_store]
                simpa using hic
      · exact ih (completeCheckStep acc x) oid hmemx o hact hord

theorem completeCheckFold_flip (l : List String) :
    ∀ (acc : OrderManager) (oid : String) (o : Order), l.Nodup → oid ∈ l →
      dictGet acc.orders oid = some o → o.is_completed acc.store = true →
      dictGet (l.foldl completeCheckStep acc).orders oid
          = some { o with status := .COMPLETED }
      ∧ oid ∉ (l.foldl completeCheckStep acc).active_order_ids := by
  induction l with
  | nil => intro acc oid o _ h; simp at h
  | cons x xs ih =>
      intro acc oid o hnd hmem hord hic
      rw [List.foldl_cons]
      rcases List.mem_cons.mp hmem with rfl | hmemx
      · have hflip := completeCheckStep_flip acc oid o hord hic
        have hnotxs : oid ∉ xs := (List.nodup_cons.mp hnd).1
        refine ⟨?_, ?_⟩
        · rw [completeCheckFold_orders_notin xs _ oid hnotxs]
          exact hflip.1
        · intro hmem'
          exact hflip.2 (completeCheckFold_active_sub xs _ oid hmem')
      · have hx : oid ≠ x := by
          intro he
          exact (List.nodup_cons.mp hnd).1 (he ▸ hmemx)
        have hord1 : dictGet (completeCheckStep acc x).orders oid = some o := by
          rw [completeCheckStep_orders_ne acc x oid hx]
          exact hord
        have hic1 : o.is_completed (completeCheckStep acc x).store = true := by
          rw [completeCheckStep_store]
          exact hic
        exact ih (completeCheckStep acc x) oid o (List.nodup_cons.mp hnd).2 hmemx hord1 hic1


theorem setAdd_nodup {α : Type} [DecidableEq α] (s : List α) (a : α)
    (h : s.Nodup) : (setAdd s a).Nodup := by
  unfold setAdd
  by_cases hmem : a ∈ s
  · rwa [if_pos hmem]
  · rw [if_neg hmem]
    exact nodup_append_single s a hmem h

theorem setDiscard_nodup {α : Type} [DecidableEq α] (s : List α) (a : α)
    (h : s.Nodup) : (setDiscard s a).Nodup :=
  h.filter _

theorem create_active_char (m : OrderManager) (payload : Payload) (now : Nat) :
    ((m.create_order_from_payload payload now).2.active_order_ids = m.active_order_ids ∧
     (m.create_order_from_payload payload now).2.orders = m.orders)
    ∨ ∃ oid, payload.order_id = some oid ∧ dictGet m.orders oid = none ∧
        (m.create_order_from_payload payload now).2.active_order_ids
          = setAdd m.active_order_ids oid ∧
        (∀ k, k ≠ oid → dictGet (m.create_order_from_payload payload now).2.orders k
          = dictGet m.orders k) ∧
        ∃ onew, dictGet (m.create_order_from_payload payload now).2.orders oid = some onew ∧
          onew.status ≠ .COMPLETED := by
  cases hid : payload.order_id with
  | none => left; simp [OrderManager.create_order_from_payload, hid]
  | some oid =>
    cases hord : dictGet m.orders oid with
    | some ex => left; simp [OrderManager.create_order_from_payload, hid, hord]
    | none =>
      right
      refine ⟨oid, rfl, hord, ?_, ?_, ?_⟩
      · simp only [OrderManager.create_order_from_payload, hid, hord]
        rw [createFold_mgr_active]
      · intro k hk
        simp only [OrderManager.create_order_from_payload, hid, hord]
        rw [dictGet_dictSet_ne _ _ _ _ hk, createFold_mgr_orders]
      · refine ⟨(payload.items.foldl (createItemsStep oid now)
            (initOrder oid now payload.deadline, m, 1)).1, ?_, ?_⟩
        · simp only [OrderManager.create_order_from_payload, hid, hord]
          rw [dictGet_dictSet_self]
        · exact createFold_status _ _ _ _ (by rw [initOrder_status]; simp)

/-- The invariant the directory maintains across its operations: the active
set has no duplicates, and a stored order is active exactly when its status
is not completed. -/
def DirInv (m : OrderManager) : Prop :=
  m.active_order_ids.Nodup
  ∧ ∀ oid o, dictGet m.orders oid = some o →
      (oid ∈ m.active_order_ids ↔ o.status ≠ .COMPLETED)

theorem completeCheckStep_iff (acc : OrderManager) (oid : String)
    (h : ∀ k o, dictGet acc.orders k = some o →
      (k ∈ acc.active_order_ids ↔ o.status ≠ .COMPLETED)) :
    ∀ k o, dictGet (completeCheckStep acc oid).orders k = some o →
      (k ∈ (completeCheckStep acc oid).active_order_ids ↔ o.status ≠ .COMPLETED) := by
  intro k o hk
  cases hord : dictGet acc.orders oid with
  | none =>
      rw [completeCheckStep_miss acc oid hord] at hk ⊢
      exact h k o hk
  | some o0 =>
      by_cases hic : o0.is_completed acc.store = true
      · by_cases hkk : k = oid
        · subst hkk
          have hflip := completeCheckStep_flip acc k o0 hord hic
          rw [hflip.1] at hk
          obtain rfl : ({ o0 with status := .COMPLETED } : Order) = o :=
            (Option.some.injEq _ _).mp hk
          constructor
          · intro hmem
            exact absurd hmem hflip.2
          · intro hne
            exact absurd rfl hne
        · rw [completeCheckStep_orders_ne acc oid k hkk] at hk
          have hactive : (completeCheckStep acc oid).active_order_ids
              = setDiscard acc.active_order_ids oid := by
            simp [completeCheckStep, hord, hic]
          rw [hactive, mem_setDiscard]
          rw [← h k o hk]
          constructor
          · exact fun hx => hx.1
          · exact fun hx => ⟨hx, hkk⟩
      · rw [completeCheckStep_skip acc oid o0 hord hic] at hk ⊢
        exact h k o hk

theorem completeCheckStep_dirInv (acc : OrderManager) (oid : String)
    (h : DirInv acc) : DirInv (completeCheckStep acc oid) := by
  obtain ⟨hnd, hiff⟩ := h
  refine ⟨?_, completeCheckStep_iff acc oid hiff⟩
  unfold completeCheckStep
  split
  · exact hnd
  · split
    · exact setDiscard_nodup _ _ hnd
    · exact hnd

theorem applyOp_dirInv (m : OrderManager) (op : DirOp)
    (h : DirInv m) : DirInv (m.applyOp op) := by
  obtain ⟨hnd, hiff⟩ := h
  cases op with
  | createOrder payload now =>
      rcases create_active_char m payload now with ⟨hact, hord⟩ | ⟨oid, hid, hnone, hact, hne, onew, honew, hst⟩
      · constructor
        · simp only [OrderManager.applyOp]
          rw [hact]
          exact hnd
        · intro k o hk
          simp only [OrderManager.applyOp] at hk ⊢
          rw [hord] at hk
          rw [hact]
          exact hiff k o hk
      · constructor
        · simp only [OrderManager.applyOp]
          rw [hact]
          exact setAdd_nodup _ _ hnd
        · intro k o hk
          simp only [OrderManager.applyOp] at hk ⊢
          rw [hact, mem_setAdd]
          by_cases hkk : k = oid
          · subst hkk
            rw [honew] at hk
            obtain rfl : onew = o := (Option.some.injEq _ _).mp hk
            constructor
            · intro _; exact hst
            · intro _; exact Or.inr rfl
          · rw [hne k hkk] at hk
            rw [← hiff k o hk]
            constructor
            · rintro (hx | rfl)
              · exact hx
              · exact absurd rfl hkk
            · exact Or.inl
  | updateStatus pid st loc agv now =>
      constructor
      · simp only [OrderManager.applyOp]
        rw [update_product_status_active]
        exact hnd
      · intro k o hk
        simp only [OrderManager.applyOp] at hk ⊢
        rw [update_product_status_orders] at hk
        rw [update_product_status_active]
        exact hiff k o hk
  | assignLine aoid aline pids =>
      constructor
      · simp only [OrderManager.applyOp]
        rw [assign_order_to_line_active]
        exact hnd
      · intro k o hk
        simp only [OrderManager.applyOp] at hk ⊢
        rw [assign_order_to_line_active]
        rcases assign_order_to_line_orders_char m aoid aline pids k o hk with
          hold | ⟨o0, pl, ho0, rfl⟩
        · exact hiff k o hold
        · rw [assign_fold_status]
          exact hiff k o0 ho0
  | completeCheck =>
      simp only [OrderManager.applyOp]
      unfold OrderManager.complete_order_check
      exact foldl_pred completeCheckStep DirInv
        (fun b a hb => completeCheckStep_dirInv b a hb) m.active_order_ids m ⟨hnd, hiff⟩

theorem runOps_dirInv (ops : List DirOp) : DirInv (OrderManager.runOps {} ops) := by
  unfold OrderManager.runOps
  refine foldl_pred _ DirInv applyOp_dirInv ops {} ⟨List.nodup_nil, ?_⟩
  intro oid o h
  simp [dictGet] at h


theorem initOrder_products (oid : String) (now : Nat) (d : Option Nat) :
    (initOrder oid now d).products = [] := by
  unfold initOrder
  cases d <;> rfl

/-! ### Claim C3: completed status versus terminal products -/

/-- The order stored for `o1` after its one product was created and driven
to the warehouse (all products terminal, status still in-progress). -/
def c3DemoOrder : Order :=
  { order_id := "o1", products := [0], status := .IN_PROGRESS, created_time := 0 }

/-- C3 fails as stated: after the single product of order `o1` reaches
`in_warehouse`, every owned product is terminal yet `order.status` is still
`in_progress` — the completed-iff-all-terminal invariant does not hold in
every reachable state, only after `complete_order_check` runs. -/
theorem claim_C3_counterexample :
    ¬ (∀ oid o, dictGet c8M1.orders oid = some o →
        (o.status = .COMPLETED ↔ o.is_completed c8M1.store = true)) := by
  intro hclaim
  have h := hclaim "o1" c3DemoOrder (by decide)
  have h2 : c3DemoOrder.status = .COMPLETED := h.mpr (by decide)
  simp [c3DemoOrder] at h2

theorem completeCheckStep_active_mem_ne (acc : OrderManager) (x oid : String)
    (hne : oid ≠ x) :
    oid ∈ (completeCheckStep acc x).active_order_ids ↔ oid ∈ acc.active_order_ids := by
  cases hord : dictGet acc.orders x with
  | none => rw [completeCheckStep_miss acc x hord]
  | some o =>
      by_cases hic : o.is_completed acc.store = true
      · have hv : (completeCheckStep acc x).active_order_ids
            = setDiscard acc.active_order_ids x := by
          simp [completeCheckStep, hord, hic]
        rw [hv, mem_setDiscard]
        constructor
        · exact fun h => h.1
        · exact fun h => ⟨h, hne⟩
      · rw [completeCheckStep_skip acc x o hord hic]

/-- An order whose products are not all terminal is left untouched by the
whole check loop: its stored value is unchanged and it is never discarded
from the active set (each iteration only discards its own key, and the
iteration at this key takes the skip branch). -/
theorem completeCheckFold_untouched (l : List String) :
    ∀ (acc : OrderManager) (oid : String) (o : Order),
      dictGet acc.orders oid = some o → o.is_completed acc.store = false →
      dictGet (l.foldl completeCheckStep acc).orders oid = some o
      ∧ (oid ∈ acc.active_order_ids →
          oid ∈ (l.foldl completeCheckStep acc).active_order_ids) := by
  induction l with
  | nil => intro acc oid o hord _; exact ⟨hord, fun h => h⟩
  | cons x xs ih =>
      intro acc oid o hord hic
      rw [List.foldl_cons]
      by_cases hx : x = oid
      · subst hx
        rw [completeCheckStep_skip acc x o hord (by simp [hic])]
        exact ih acc x o hord hic
      · have hne : oid ≠ x := fun h => hx h.symm
        have hord1 : dictGet (completeCheckStep acc x).orders oid = some o := by
          rw [completeCheckStep_orders_ne acc x oid hne]
          exact hord
        have hic1 : o.is_completed (completeCheckStep acc x).store = false := by
          rw [completeCheckStep_store]
          exact hic
        obtain ⟨h1, h2⟩ := ih (completeCheckStep acc x) oid o hord1 hic1
        refine ⟨h1, fun hmem => h2 ?_⟩
        exact (completeCheckStep_active_mem_ne acc x oid hne).mpr hmem

/-- C3 (amended): in every state reachable through the directory's
operations, an order's status is `completed` iff it has been removed from
the active set; `complete_order_check` is what establishes the spec's
biconditional: right after it runs every still-active order has some
non-terminal product, and it flips exactly the active orders whose products
are all terminal (including zero-product orders) to `completed`, removing
them from the active set — while every active order that still has a
non-terminal product is left untouched: its stored value is unchanged and
it stays in the active set.  Between checks an order may have all products
terminal while its status is still pending/in-progress. -/
theorem claim_C3_amended (ops : List DirOp) :
    (∀ oid o, dictGet (OrderManager.runOps {} ops).orders oid = some o →
       (oid ∈ (OrderManager.runOps {} ops).active_order_ids ↔ o.status ≠ .COMPLETED))
    ∧ (∀ oid o,
        dictGet (OrderManager.runOps {} ops).complete_order_check.orders oid = some o →
        oid ∈ (OrderManager.runOps {} ops).complete_order_check.active_order_ids →
        o.is_completed (OrderManager.runOps {} ops).complete_order_check.store = false)
    ∧ (∀ oid o, dictGet (OrderManager.runOps {} ops).orders oid = some o →
        oid ∈ (OrderManager.runOps {} ops).active_order_ids →
        o.is_completed (OrderManager.runOps {} ops).store = true →
        dictGet (OrderManager.runOps {} ops).complete_order_check.orders oid
            = some { o with status := .COMPLETED }
        ∧ oid ∉ (OrderManager.runOps {} ops).complete_order_check.active_order_ids)
    ∧ (∀ oid o, dictGet (OrderManager.runOps {} ops).orders oid = some o →
        oid ∈ (OrderManager.runOps {} ops).active_order_ids →
        o.is_completed (OrderManager.runOps {} ops).store = false →
        dictGet (OrderManager.runOps {} ops).complete_order_check.orders oid = some o
        ∧ oid ∈ (OrderManager.runOps {} ops).complete_order_check.active_order_ids) := by
  obtain ⟨hnd, hiff⟩ := runOps_dirInv ops
  have hcc : (OrderManager.runOps {} ops).complete_order_check
      = (OrderManager.runOps {} ops).active_order_ids.foldl completeCheckStep
          (OrderManager.runOps {} ops) := rfl
  refine ⟨hiff, ?_, ?_, ?_⟩
  · intro oid o hord hact
    rw [hcc] at hord hact ⊢
    have hin : oid ∈ (OrderManager.runOps {} ops).active_order_ids :=
      completeCheckFold_active_sub _ _ oid hact
    exact completeCheckFold_active_not_completed _ _ oid hin o hact hord
  · intro oid o hord hact hic
    rw [hcc]
    exact completeCheckFold_flip _ _ oid o hnd hact hord hic
  · intro oid o hord hact hic
    rw [hcc]
    obtain ⟨h1, h2⟩ := completeCheckFold_untouched
      (OrderManager.runOps {} ops).active_order_ids (OrderManager.runOps {} ops)
      oid o hord hic
    exact ⟨h1, h2 hact⟩

/-- Witness for the amended C3 at a concrete one-op history. -/
theorem claim_C3_amended_witness :
    "o1" ∈ (OrderManager.runOps {} [DirOp.createOrder c8Payload 0]).active_order_ids
      ↔ c3DemoOrder.status ≠ .COMPLETED :=
  (claim_C3_amended [DirOp.createOrder c8Payload 0]).1 "o1" c3DemoOrder (by decide)

/-! ### Claim C10: zero-product orders complete immediately -/

/-- C10: an order created from a payload with an empty items list owns zero
products, satisfies `is_completed()` immediately (vacuously), and the next
`complete_order_check` call flips its status to `completed` and removes it
from the active set even though no product was ever produced. -/
theorem claim_C10 (payload : Payload) (oid : String) (now : Nat)
    (hid : payload.order_id = some oid) (hitems : payload.items = []) :
    ∃ o, (OrderManager.create_order_from_payload {} payload now).1 = some o ∧
      o.products = [] ∧
      o.is_completed (OrderManager.create_order_from_payload {} payload now).2.store = true ∧
      oid ∈ (OrderManager.create_order_from_payload {} payload now).2.active_order_ids ∧
      dictGet (OrderManager.create_order_from_payload {} payload
          now).2.complete_order_check.orders oid = some { o with status := .COMPLETED } ∧
      oid ∉ (OrderManager.create_order_from_payload {} payload
          now).2.complete_order_check.active_order_ids := by
  have hm : OrderManager.create_order_from_payload {} payload now =
      (some (initOrder oid now payload.deadline),
       { orders := [(oid, initOrder oid now payload.deadline)],
         active_order_ids := [oid] }) := by
    simp [OrderManager.create_order_from_payload, hid, hitems, dictGet, dictSet, setAdd]
  rw [hm]
  have hflip := completeCheckFold_flip [oid]
    { orders := [(oid, initOrder oid now payload.deadline)], active_order_ids := [oid] }
    oid (initOrder oid now payload.deadline) (by simp) (by simp)
    (by simp [dictGet]) (by simp [Order.is_completed, initOrder_products])
  exact ⟨initOrder oid now payload.deadline, rfl, initOrder_products _ _ _,
    by simp [Order.is_completed, initOrder_products], by simp, hflip.1, hflip.2⟩

/-- Witness for C10 at a concrete empty-items payload. -/
theorem claim_C10_witness :
    ∃ o, (OrderManager.create_order_from_payload {}
        ({ order_id := some "o1" } : Payload) 3).1 = some o ∧
      o.products = [] ∧
      o.is_completed (OrderManager.create_order_from_payload {}
        ({ order_id := some "o1" } : Payload) 3).2.store = true ∧
      "o1" ∈ (OrderManager.create_order_from_payload {}
        ({ order_id := some "o1" } : Payload) 3).2.active_order_ids ∧
      dictGet (OrderManager.create_order_from_payload {}
          ({ order_id := some "o1" } : Payload) 3).2.complete_order_check.orders "o1"
        = some { o with status := .COMPLETED } ∧
      "o1" ∉ (OrderManager.create_order_from_payload {}
          ({ order_id := some "o1" } : Payload) 3).2.complete_order_check.active_order_ids :=
  claim_C10 { order_id := some "o1" } "o1" 3 rfl rfl

/-! ### Claim C1: `process_order` is idempotent per order id -/

theorem create_fst_some (m : OrderManager) (payload : Payload) (now : Nat)
    (oid : String) (hid : payload.order_id = some oid) :
    ∃ o, (m.create_order_from_payload payload now).1 = some o := by
  cases hord : dictGet m.orders oid with
  | some ex =>
      exact ⟨ex, by simp [OrderManager.create_order_from_payload, hid, hord]⟩
  | none =>
      exact ⟨(payload.items.foldl (createItemsStep oid now)
          (initOrder oid now payload.deadline, m, 1)).1,
        by simp [OrderManager.create_order_from_payload, hid, hord]⟩

/-- C1: `process_order` is idempotent per order id — whatever the first call
with a given order id returned, a second call with that id (any requesting
line, any later time) returns the very same Order and leaves the whole
shared state unchanged: no additional Product objects are created (the
store, products dict and orders are part of the preserved state) and no
additional line assignment is performed (the round-robin counter and all
`line_assignments` are part of the preserved state). -/
theorem claim_C1 (s : SharedOrderManager) (payload : Payload) (oid : String)
    (line line2 : String) (now now2 : Nat) (hid : payload.order_id = some oid)
    (r : Option Order) (s₁ : SharedOrderManager)
    (h : s.process_order payload line now = (r, s₁)) :
    s₁.process_order payload line2 now2 = (r, s₁) := by
  have key : oid ∈ s₁.processed_orders ∧ r = dictGet s₁.order_manager.orders oid := by
    by_cases hp : oid ∈ s.processed_orders
    · simp only [SharedOrderManager.process_order, hid, if_pos hp] at h
      injection h with h1 h2
      subst h2
      exact ⟨hp, h1.symm⟩
    · obtain ⟨o, ho⟩ := create_fst_some s.order_manager payload now oid hid
      simp only [SharedOrderManager.process_order, hid, if_neg hp, ho] at h
      injection h with h1 h2
      subst h2
      refine ⟨?_, h1.symm⟩
      exact (mem_setAdd _ _ _).mpr (Or.inr rfl)
  obtain ⟨hmem, hr⟩ := key
  simp only [SharedOrderManager.process_order, hid, if_pos hmem]
  rw [hr]

/-- Witness for C1: processing the same payload twice from the fresh
singleton returns the first call's result unchanged. -/
theorem claim_C1_witness :
    (({} : SharedOrderManager).process_order c8Payload "line1" 0).2.process_order
        c8Payload "line2" 5
      = ((({} : SharedOrderManager).process_order c8Payload "line1" 0).1,
         (({} : SharedOrderManager).process_order c8Payload "line1" 0).2) :=
  claim_C1 {} c8Payload "o1" "line1" "line2" 0 5 rfl _ _ rfl

/-! ### Claim C7: the snapshot accessor returns a shallow copy -/

theorem dictGet_some_mem {κ α : Type} [DecidableEq κ] (d : List (κ × α)) (k : κ)
    (v : α) (h : dictGet d k = some v) : k ∈ d.map Prod.fst := by
  induction d with
  | nil => simp [dictGet] at h
  | cons kv rest ih =>
      obtain ⟨k0, v0⟩ := kv
      by_cases hk : k0 = k
      · subst hk; simp
      · simp only [dictGet, if_neg hk] at h
        simp [ih h]

theorem PyHeap.WF_lt (h : PyHeap) (hwf : h.WF) (a : Nat) (v : PyVal)
    (hv : h.get a = some v) : a < h.next_addr :=
  hwf a (dictGet_some_mem h.cells a v hv)

theorem PyHeap.get_set_ne (h : PyHeap) (a b : Nat) (v : PyVal) (hb : b ≠ a) :
    (h.set a v).get b = h.get b :=
  dictGet_dictSet_ne h.cells a b v hb

theorem PyHeap.get_set_self (h : PyHeap) (a : Nat) (v : PyVal) :
    (h.set a v).get a = some v :=
  dictGet_dictSet_self h.cells a v

theorem PyHeap.get_alloc_ne (h : PyHeap) (v : PyVal) (a : Nat)
    (ha : a ≠ h.next_addr) : (h.alloc v).2.get a = h.get a :=
  dictGet_dictSet_ne h.cells h.next_addr a v ha

theorem PyHeap.get_alloc_self (h : PyHeap) (v : PyVal) :
    (h.alloc v).2.get (h.alloc v).1 = some v :=
  dictGet_dictSet_self h.cells h.next_addr v

theorem PyHeap.setItem_get_ne (h : PyHeap) (a : Nat) (key : String) (vaddr : Nat)
    (b : Nat) (hb : b ≠ a) : (h.setItem a key vaddr).get b = h.get b := by
  unfold PyHeap.setItem
  cases hga : h.get a with
  | none => rfl
  | some w =>
      cases w with
      | vdict es => exact h.get_set_ne a b _ hb
      | vlist es => rfl
      | vnum n => rfl
      | vstr t => rfl
      | vnone => rfl

theorem PyHeap.setItem_next (h : PyHeap) (a : Nat) (key : String) (vaddr : Nat) :
    (h.setItem a key vaddr).next_addr = h.next_addr := by
  unfold PyHeap.setItem
  cases h.get a with
  | none => rfl
  | some w => cases w <;> rfl

/-- C7 (amended): `get_factory_state` returns a shallow copy: the returned
top-level dict is a fresh object (its address differs from the aggregator's
own `factory_state`, and rebinding its keys leaves the aggregator's dict
untouched), but its entries carry the very same addresses of the nested
station/AGV/conveyor/warehouse records and the alerts list as the
aggregator's internal dict — mutating those shared objects through the
snapshot is visible to the aggregator, so the claimed deep-copy isolation
does not hold for nested records. -/
theorem claim_C7_amended (h : PyHeap) (m : ListenerState) (now : Int)
    (es : List (String × Nat)) (hwf : h.WF)
    (hget : h.get m.factory_state = some (.vdict es)) :
    (get_factory_state m h now).1 ≠ m.factory_state
    ∧ (∀ key a, ((get_factory_state m h now).2.setItem (get_factory_state m h now).1
          key a).get m.factory_state = (get_factory_state m h now).2.get m.factory_state)
    ∧ (get_factory_state m h now).2.get (get_factory_state m h now).1
        = some (.vdict (dictSet es "last_updated" h.next_addr))
    ∧ (get_factory_state m h now).2.get m.factory_state
        = some (.vdict (dictSet es "last_updated" h.next_addr)) := by
  have hfs_lt : m.factory_state < h.next_addr := h.WF_lt hwf _ _ hget
  have hfst : (h.alloc (.vnum now)).1 = h.next_addr := rfl
  have h1get : (h.alloc (.vnum now)).2.get m.factory_state = some (.vdict es) :=
    (h.get_alloc_ne (.vnum now) m.factory_state (by omega)).trans hget
  have h2 : (h.alloc (.vnum now)).2.setItem m.factory_state "last_updated" h.next_addr
      = (h.alloc (.vnum now)).2.set m.factory_state
          (.vdict (dictSet es "last_updated" h.next_addr)) := by
    unfold PyHeap.setItem
    rw [h1get]
  have h2get : ((h.alloc (.vnum now)).2.setItem m.factory_state "last_updated"
        h.next_addr).get m.factory_state
      = some (.vdict (dictSet es "last_updated" h.next_addr)) := by
    rw [h2]
    exact PyHeap.get_set_self _ _ _
  have h2next : ((h.alloc (.vnum now)).2.setItem m.factory_state "last_updated"
        h.next_addr).next_addr = h.next_addr + 1 := by
    rw [PyHeap.setItem_next]
    rfl
  have hres : get_factory_state m h now
      = ((h.alloc (.vnum now)).2.setItem m.factory_state "last_updated"
            h.next_addr).alloc (.vdict (dictSet es "last_updated" h.next_addr)) := by
    unfold get_factory_state
    simp only []
    rw [hfst, h2get]
  have hsnap : (get_factory_state m h now).1 = h.next_addr + 1 := by
    rw [hres]
    show ((h.alloc (.vnum now)).2.setItem m.factory_state "last_updated"
        h.next_addr).next_addr = h.next_addr + 1
    exact h2next
  have hsnapne : (get_factory_state m h now).1 ≠ m.factory_state := by
    rw [hsnap]
    omega
  have hfsget : (get_factory_state m h now).2.get m.factory_state
      = some (.vdict (dictSet es "last_updated" h.next_addr)) := by
    rw [hres]
    have := PyHeap.get_alloc_ne ((h.alloc (.vnum now)).2.setItem m.factory_state
        "last_updated" h.next_addr) (.vdict (dictSet es "last_updated" h.next_addr))
        m.factory_state (by rw [h2next]; omega)
    rw [this]
    exact h2get
  refine ⟨hsnapne, ?_, ?_, hfsget⟩
  · intro key a
    rw [PyHeap.setItem_get_ne _ _ _ _ _ (Ne.symm hsnapne)]
  · rw [hres]
    exact PyHeap.get_alloc_self _ _


instance (h : PyHeap) : Decidable h.WF := by
  unfold PyHeap.WF
  infer_instance

/-- A freshly initialised listener and its heap. -/
def c7Listener : ListenerState × PyHeap := initListener {}

/-- The snapshot the caller receives from `get_factory_state`. -/
def c7Snapshot : Nat × PyHeap := get_factory_state c7Listener.1 c7Listener.2 5

/-- The heap after the caller mutates the stations record reached through
the returned snapshot only (`snapshot["stations"]["StationA"] = record`). -/
def c7Mutated : PyHeap :=
  let stationsAddr := (c7Snapshot.2.getItem c7Snapshot.1 "stations").getD 999
  let rec0 := c7Snapshot.2.alloc (.vstr "blocked")
  rec0.2.setItem stationsAddr "StationA" rec0.1

/-- C7 fails as stated: `get_factory_state` returns
`self.factory_state.copy()`, a shallow copy.  Writing a new station entry
into the stations dict reached through the returned snapshot changes what
the aggregator sees through its own internal `factory_state` (the entry
appears where there was none), because the snapshot and the aggregator
share the same nested stations object. -/
theorem claim_C7_counterexample :
    c7Snapshot.1 ≠ c7Listener.1.factory_state
    ∧ c7Snapshot.2.getItem
        ((c7Snapshot.2.getItem c7Listener.1.factory_state "stations").getD 999)
        "StationA" = none
    ∧ c7Mutated.getItem
        ((c7Mutated.getItem c7Listener.1.factory_state "stations").getD 999)
        "StationA" = some 9
    ∧ (c7Snapshot.2.getItem c7Snapshot.1 "stations")
        = (c7Snapshot.2.getItem c7Listener.1.factory_state "stations") := by
  refine ⟨by decide, by decide, by decide, by decide⟩

/-- The top-level entries of a freshly initialised factory state. -/
def c7InitEntries : List (String × Nat) :=
  [("stations", 0), ("agvs", 1), ("conveyors", 2), ("warehouse", 3),
   ("alerts", 4), ("last_updated", 5)]

/-- Witness for the amended C7 at the freshly initialised listener heap. -/
theorem claim_C7_amended_witness :
    c7Listener.2.WF
    ∧ c7Listener.2.get c7Listener.1.factory_state = some (.vdict c7InitEntries)
    ∧ (get_factory_state c7Listener.1 c7Listener.2 5).1 ≠ c7Listener.1.factory_state :=
  ⟨by decide, by decide,
   (claim_C7_amended c7Listener.2 c7Listener.1 5 c7InitEntries (by decide) (by decide)).1⟩

end NLDF
